import Mathlib

/-!
Shallow embedding of `src/uchart.py` (uChart 0.9.25): the braille chart
renderer, the value compressor, the Y-axis precision reduction, the
time-field detector, the granularity tracker, the bucket summer and the
X-axis legend routine.  Numeric values are embedded as exact rationals
(`ℚ`); Python strings appear as `List Char`; Python dicts keyed by the
granularity letters `'ymdHMS'` appear as functions out of `TKey`.
-/

set_option autoImplicit false

/-- Truncation toward zero: the behaviour of Python `int()` on a number. -/
def ratTrunc (q : ℚ) : ℤ := if q < 0 then -(Rat.floor (-q)) else Rat.floor q

/-- Python `round` on an exact rational: round half to even (banker's
rounding), the semantics of `round(x)` for a non-negative float. -/
def pyRound (q : ℚ) : ℤ :=
  let f := Rat.floor q
  if q - (f : ℚ) < 1/2 then f
  else if (1:ℚ)/2 < q - (f : ℚ) then f + 1
  else if f % 2 = 0 then f else f + 1

/-- Python string slice `s[a:b]` for `0 ≤ a ≤ b` (the only indices the
program produces). -/
def pySlice (s : List Char) (a b : ℕ) : List Char := (s.drop a).take (b - a)

/-- `uchart.get_dot_for_value`: map a value to the quarter-row dot index of
text row `row`, or `none` when the value lands in another text row.
Python's `int()` is truncation (`ratTrunc`), `//` on ints is floor
division (`Int.fdiv`) and `%` with positive modulus is `Int.emod`. -/
def get_dot_for_value (value : Option ℚ) (row : ℤ) (min_val max_val : ℚ)
    (G_HEIGHT : ℤ) : Option ℤ :=
  match value with
  | none => none
  | some v =>
    let value_range := max_val - min_val
    let normalized := if value_range = 0 then 1/2 else (v - min_val) / value_range
    let total_pixels := G_HEIGHT * 4
    let pixel_pos := ratTrunc (normalized * ((total_pixels : ℚ) - 1))
    let value_row := Int.fdiv pixel_pos 4
    let value_row := G_HEIGHT - 1 - value_row
    if value_row ≠ row then none
    else some (pixel_pos % 4)

/-- `dot_map` used for the left half-column in `draw_graph`
(indexed by `y_in_row`). -/
def dot_map_left : List ℕ := [6, 2, 1, 0]

/-- `dot_map` used for the right half-column in `draw_graph`. -/
def dot_map_right : List ℕ := [7, 5, 4, 3]

/-- One `for val in values_to_process` loop of `draw_graph`: set the dots
of one half-column for every value of the unit. -/
def apply_unit (dm : List ℕ) (vals : List ℚ) (row : ℤ) (mn mx : ℚ) (h : ℤ)
    (dots : List Bool) : List Bool :=
  vals.foldl (fun ds v =>
    match get_dot_for_value (some v) row mn mx h with
    | some y => ds.set (dm.getD y.toNat 0) true
    | none => ds) dots

/-- `uchart.create_braille_char`, returning the Unicode codepoint
`0x2800 + mask` as a natural number. -/
def create_braille_char (dots : List Bool) : ℕ :=
  0x2800 + (dots.enum.foldl
    (fun acc (p : ℕ × Bool) => if p.2 then acc ||| (1 <<< p.1) else acc) 0)

/-- The codepoint of one braille cell of `draw_graph`: paint the left
unit's values, then the right unit's values (a mean-mode scalar unit is
the singleton list, matching `values_to_process`). -/
def cell_char (left right : List ℚ) (row : ℤ) (mn mx : ℚ) (h : ℤ) : ℕ :=
  create_braille_char
    (apply_unit dot_map_right right row mn mx h
      (apply_unit dot_map_left left row mn mx h (List.replicate 8 false)))

/-- The loop of `uchart.average_values_in_groups` for group size `k+1`:
`i` is the running start index; each group contributes its mean and the
boundary `i + group_size` appended to `axisx['e']`.  `fuel` bounds the
iteration count structurally (any `fuel ≥ length` gives the loop's
value), keeping the definition kernel-reducible. -/
def avg_groups_go (k : ℕ) : ℕ → List ℚ → ℤ → List ℚ × List ℤ
  | 0, _, _ => ([], [])
  | _, [], _ => ([], [])
  | fuel+1, x :: xs, i =>
    let group := x :: xs.take k
    let rest := avg_groups_go k fuel (xs.drop k) (i + (k+1))
    (group.sum / (group.length : ℚ) :: rest.1, (i + ((k : ℤ)+1)) :: rest.2)

/-- `uchart.average_values_in_groups`: returns the list of group means and
the boundary indices appended to `axisx['e']`.  Python's `range` raises
for step 0; the caller guarantees `group_size ≥ 1`, so the 0 case is
inert. -/
def average_values_in_groups (values_list : List ℚ) (group_size : ℕ) :
    List ℚ × List ℤ :=
  match group_size with
  | 0 => ([], [])
  | k+1 => avg_groups_go k values_list.length values_list 0

/-- The loop of `uchart.group_values_for_multi` for group size `k+1`. -/
def multi_groups_go (k : ℕ) : ℕ → List ℚ → ℤ → List (List ℚ) × List ℤ
  | 0, _, _ => ([], [])
  | _, [], _ => ([], [])
  | fuel+1, x :: xs, i =>
    let group := x :: xs.take k
    let rest := multi_groups_go k fuel (xs.drop k) (i + (k+1))
    (group :: rest.1, (i + ((k : ℤ)+1)) :: rest.2)

/-- `uchart.group_values_for_multi`: keep each group whole. -/
def group_values_for_multi (values_list : List ℚ) (group_size : ℕ) :
    List (List ℚ) × List ℤ :=
  match group_size with
  | 0 => ([], [])
  | k+1 => multi_groups_go k values_list.length values_list 0

/-- The `for end in axisx['e']` slicing loop of
`uchart.group_values_for_precisely`.  The boundaries produced by the
caller are non-negative, so Python's `raw_values[start:end]` is the
non-negative slice. -/
def slices_go (raw : List ℚ) : ℤ → List ℤ → List (List ℚ)
  | _, [] => []
  | start, e :: es =>
    ((raw.drop start.toNat).take (e.toNat - start.toNat)) :: slices_go raw e es

/-- `uchart.group_values_for_precisely`: boundary indices
`round((i+1)·n/(2·width))` (Python `round`, half to even) and the
half-open slices between consecutive boundaries.  The local `size` list
of the source is dead code (never read) and is omitted. -/
def group_values_for_precisely (raw_values : List ℚ) (width : ℕ) :
    List (List ℚ) × List ℤ :=
  let amount_values := raw_values.length
  let bounds : List ℤ := (List.range (width * 2)).map
    (fun (i : ℕ) => pyRound (((i : ℚ) + 1) * (amount_values : ℚ) / ((width : ℚ) * 2)))
  (slices_go raw_values 0 bounds, bounds)

/-- The compression factor computed in `main` (lines 999-1004):
`ceil(n / maxcols)` when the data overflows the width, else 1.  The
`if compression_factor == 0` repair of the source is kept verbatim. -/
def compression_factor (n maxcols : ℕ) : ℕ :=
  if n > maxcols then
    let cf := (n + maxcols - 1) / maxcols
    if cf = 0 then 1 else cf
  else 1

/-- Decimal digits of a natural number, most significant first (`fuel`
bounds the digit count structurally; `fuel = n` always suffices). -/
def natDigitsGo : ℕ → ℕ → List Char → List Char
  | 0, _, acc => acc
  | _, 0, acc => acc
  | fuel+1, n+1, acc =>
    natDigitsGo fuel ((n+1)/10) (Char.ofNat (48 + (n+1) % 10) :: acc)

/-- Render a natural number in decimal. -/
def natToChars (n : ℕ) : List Char :=
  if n = 0 then ['0'] else natDigitsGo n n []

/-- Left-pad with `'0'` to length `n`. -/
def padZeros (n : ℕ) (s : List Char) : List Char :=
  List.replicate (n - s.length) '0' ++ s

/-- Python fixed-point formatting `f"{q:.{n}f}"` on an exact rational:
round the magnitude half to even at `n` decimals, keep the sign (so a
negative value rounding to zero prints as `-0.00…`), and print no decimal
point when `n = 0`. -/
def formatFixed (q : ℚ) (n : ℕ) : List Char :=
  let neg := q < 0
  let mag := (pyRound (|q| * (10:ℚ)^n)).toNat
  let intPart := natToChars (mag / 10^n)
  let fracPart := padZeros n (natToChars (mag % 10^n))
  (if neg then ['-'] else []) ++ intPart ++ (if n = 0 then [] else '.' :: fracPart)

/-- `s.split('.')[0]` and `s.split('.')[1] if '.' in s else ''`. -/
def splitIntFrac (s : List Char) : List Char × List Char :=
  (s.takeWhile (· ≠ '.'), ((s.dropWhile (· ≠ '.')).drop 1).takeWhile (· ≠ '.'))

/-- The inner `for pos in range(...)` loop of `uchart.reducef`: step
through the remaining positions (`fuel = max len − pos` iterations). -/
def firstDiffGo (f1 f2 : List Char) : ℕ → ℕ → Option ℕ
  | 0, _ => none
  | fuel+1, pos =>
    if f1.getD pos '0' ≠ f2.getD pos '0' then some (pos + 1)
    else firstDiffGo f1 f2 fuel (pos + 1)

/-- First position (1-based, as `pos + 1`) at which the two fraction
strings, padded with `'0'`, differ. -/
def firstDiff (f1 f2 : List Char) (pos : ℕ) : Option ℕ :=
  firstDiffGo f1 f2 (max f1.length f2.length - pos) pos

/-- `uchart.reducef`: minimal fraction precision distinguishing adjacent
labels, capped by the current precision `f`. -/
def reducef (p : List (List Char)) (f : ℕ) : ℕ :=
  if p.length < 2 then f
  else
    let max_needed := (p.zip p.tail).foldl
      (fun acc pr =>
        if (splitIntFrac pr.1).1 ≠ (splitIntFrac pr.2).1 then acc
        else
          match firstDiff (splitIntFrac pr.1).2 (splitIntFrac pr.2).2 0 with
          | some k => max acc k
          | none => acc) 0
    min max_needed f

/-! ### Time formats: `datetime.strptime` model and the strict regexes -/

/-- Parse one decimal digit. -/
def pDigit (c : Char) : Option ℕ :=
  if '0' ≤ c ∧ c ≤ '9' then some (c.toNat - 48) else none

/-- A two-digit component alternative of `_strptime`'s regexes: accepted
when `ok tens units` holds. -/
def alt2 (ok : ℕ → ℕ → Bool) : List Char → List (ℕ × List Char)
  | a :: b :: rest =>
    match pDigit a, pDigit b with
    | some x, some y => if ok x y then [(10*x + y, rest)] else []
    | _, _ => []
  | _ => []

/-- A one-digit component alternative. -/
def alt1 (ok : ℕ → Bool) : List Char → List (ℕ × List Char)
  | a :: rest =>
    match pDigit a with
    | some x => if ok x then [(x, rest)] else []
    | _ => []
  | _ => []

/-- `%Y`: exactly four digits. -/
def altY : List Char → List (ℕ × List Char)
  | a :: b :: c :: d :: rest =>
    match pDigit a, pDigit b, pDigit c, pDigit d with
    | some w, some x, some y, some z => [(1000*w + 100*x + 10*y + z, rest)]
    | _, _, _, _ => []
  | _ => []

/-- `%m`: `1[0-2]|0[1-9]|[1-9]`. -/
def altMonth (s : List Char) : List (ℕ × List Char) :=
  alt2 (fun x y => decide ((x = 1 ∧ y ≤ 2) ∨ (x = 0 ∧ 1 ≤ y))) s ++
  alt1 (fun x => decide (1 ≤ x)) s

/-- `%d`: `3[01]|[12]\d|0[1-9]|[1-9]`. -/
def altDay (s : List Char) : List (ℕ × List Char) :=
  alt2 (fun x y => decide ((x = 3 ∧ y ≤ 1) ∨ x = 1 ∨ x = 2 ∨ (x = 0 ∧ 1 ≤ y))) s ++
  alt1 (fun x => decide (1 ≤ x)) s

/-- `%H`: `2[0-3]|[0-1]\d|\d`. -/
def altHour (s : List Char) : List (ℕ × List Char) :=
  alt2 (fun x y => decide ((x = 2 ∧ y ≤ 3) ∨ x ≤ 1)) s ++ alt1 (fun _ => true) s

/-- `%M`: `[0-5]\d|\d`. -/
def altMinute (s : List Char) : List (ℕ × List Char) :=
  alt2 (fun x _ => decide (x ≤ 5)) s ++ alt1 (fun _ => true) s

/-- `%S`: `6[0-1]|[0-5]\d|\d` (leap seconds pass the regex but are then
rejected by the `datetime` constructor). -/
def altSec : List Char → List (ℕ × List Char) := fun s =>
  alt2 (fun x y => decide ((x = 6 ∧ y ≤ 1) ∨ x ≤ 5)) s ++ alt1 (fun _ => true) s

/-- A literal character of a format string. -/
def litP (ch : Char) : List Char → List (Unit × List Char)
  | a :: rest => if a = ch then [((), rest)] else []
  | [] => []

/-- `%Y⟨sep⟩%m⟨sep⟩%d`: all backtracking parses of a date. -/
def parseDate (sep : Char) (s : List Char) : List ((ℕ × ℕ × ℕ) × List Char) :=
  (altY s).bind fun py =>
  (litP sep py.2).bind fun p1 =>
  (altMonth p1.2).bind fun pm =>
  (litP sep pm.2).bind fun p2 =>
  (altDay p2.2).map fun pd => ((py.1, pm.1, pd.1), pd.2)

/-- `%H⟨sep⟩%M`: all backtracking parses of an hour-minute time. -/
def parseHM (sep : Char) (s : List Char) : List ((ℕ × ℕ) × List Char) :=
  (altHour s).bind fun ph =>
  (litP sep ph.2).bind fun p1 =>
  (altMinute p1.2).map fun pm => ((ph.1, pm.1), pm.2)

/-- `%H⟨sep⟩%M⟨sep⟩%S`: all backtracking parses of a full time. -/
def parseHMS (sep : Char) (s : List Char) : List ((ℕ × ℕ × ℕ) × List Char) :=
  (altHour s).bind fun ph =>
  (litP sep ph.2).bind fun p1 =>
  (altMinute p1.2).bind fun pm =>
  (litP sep pm.2).bind fun p2 =>
  (altSec p2.2).map fun ps => ((ph.1, pm.1, ps.1), ps.2)

/-- Gregorian leap year, as validated by `datetime`. -/
def isLeap (y : ℕ) : Bool := y % 4 = 0 && (y % 100 ≠ 0 || y % 400 = 0)

/-- Days of a month, as validated by `datetime`. -/
def daysInMonth (y m : ℕ) : ℕ :=
  if m = 2 then (if isLeap y then 29 else 28)
  else if m = 4 ∨ m = 6 ∨ m = 9 ∨ m = 11 then 30 else 31

/-- The `datetime` constructor's validation of a parsed date: the regex
already bounds the month and the day's first digit, the constructor
additionally demands `year ≥ 1` and a day that exists in the month. -/
def validDate (y m d : ℕ) : Bool := decide (1 ≤ y) && decide (d ≤ daysInMonth y m)

/-- The `datetime` constructor's validation of parsed seconds (the `%S`
regex admits 60 and 61, the constructor rejects them). -/
def validSec (s : ℕ) : Bool := decide (s ≤ 59)

/-- `strptime(s, "%Y-%m-%d⟨sep⟩%H:%M:%S")` succeeds: some complete parse
passes validation.  (The component separators are non-digits, so at most
one alternative assignment can complete the format.) -/
def strpTS (sep : Char) (s : List Char) : Bool :=
  ((parseDate '-' s).bind fun pd =>
   (litP sep pd.2).bind fun p1 =>
   (parseHMS ':' p1.2).map fun pt => ((pd.1, pt.1), pt.2)).any
    fun pr => pr.2.isEmpty &&
      validDate pr.1.1.1 pr.1.1.2.1 pr.1.1.2.2 && validSec pr.1.2.2.2

/-- `strptime(s, "%Y⟨sep⟩%m⟨sep⟩%d")` succeeds. -/
def strpDT (sep : Char) (s : List Char) : Bool :=
  (parseDate sep s).any fun pr =>
    pr.2.isEmpty && validDate pr.1.1 pr.1.2.1 pr.1.2.2

/-- `strptime(s, "%H⟨sep⟩%M⟨sep⟩%S")` succeeds. -/
def strpT3 (sep : Char) (s : List Char) : Bool :=
  (parseHMS sep s).any fun pr => pr.2.isEmpty && validSec pr.1.2.2

/-- `strptime(s, "%H:%M")` succeeds. -/
def strpT2 (s : List Char) : Bool :=
  (parseHM ':' s).any fun pr => pr.2.isEmpty

/-- The modes of `uchart.is_valid` (Python passes them as strings). -/
inductive VMode | ts | dt | ti | f1
deriving DecidableEq

/-- `uchart.is_valid`: strict format validation via `strptime`. -/
def is_valid (s : List Char) (mode : VMode) : Bool :=
  match mode with
  | .ts => strpTS 'T' s || strpTS '_' s
  | .dt => strpDT '-' s || strpDT '/' s
  | .ti =>
    if s.length = 8 then strpT3 ':' s || strpT3 '.' s
    else if s.length = 5 then strpT2 s
    else false
  | .f1 =>
    -- format = '  %Y-%m-%dT%H:%M:%S'[:s2].strip() for the ISO_PARTS
    -- length s2 ∈ {4,7,10,13,16,19} matching len(s); else False
    if s.length = 4 then (altY s).any fun pr => pr.2.isEmpty && validDate pr.1 1 1
    else if s.length = 7 then
      ((altY s).bind fun py => (litP '-' py.2).bind fun p1 =>
        (altMonth p1.2).map fun pm => ((py.1, pm.1), pm.2)).any
        fun pr => pr.2.isEmpty && validDate pr.1.1 pr.1.2 1
    else if s.length = 10 then strpDT '-' s
    else if s.length = 13 then
      ((parseDate '-' s).bind fun pd => (litP 'T' pd.2).bind fun p1 =>
        (altHour p1.2).map fun ph => ((pd.1, ph.1), ph.2)).any
        fun pr => pr.2.isEmpty && validDate pr.1.1.1 pr.1.1.2.1 pr.1.1.2.2
    else if s.length = 16 then
      ((parseDate '-' s).bind fun pd => (litP 'T' pd.2).bind fun p1 =>
        (parseHM ':' p1.2).map fun pt => ((pd.1, pt.1), pt.2)).any
        fun pr => pr.2.isEmpty && validDate pr.1.1.1 pr.1.1.2.1 pr.1.1.2.2
    else if s.length = 19 then strpTS 'T' s
    else false

/-- Character of `s` at index `i`, a blank off the end (no regex class of
the program matches a blank, so short strings fail exactly as with `re`). -/
def chAt (s : List Char) (i : ℕ) : Char := s.getD i ' '

/-- Digit test for `chAt`. -/
def digAt (s : List Char) (i : ℕ) : Bool := '0' ≤ chAt s i && chAt s i ≤ '9'

/-- `lo ≤ s[i] ≤ hi`. -/
def rngAt (s : List Char) (i : ℕ) (lo hi : Char) : Bool :=
  lo ≤ chAt s i && chAt s i ≤ hi

/-- Regex fragment `(0[1-9]|1[0-2])` at position `i`. -/
def reMonth (s : List Char) (i : ℕ) : Bool :=
  (chAt s i == '0' && rngAt s (i+1) '1' '9') ||
  (chAt s i == '1' && rngAt s (i+1) '0' '2')

/-- Regex fragment `(0[1-9]|[12]\d|3[01])` at position `i`. -/
def reDay (s : List Char) (i : ℕ) : Bool :=
  (chAt s i == '0' && rngAt s (i+1) '1' '9') ||
  ((chAt s i == '1' || chAt s i == '2') && digAt s (i+1)) ||
  (chAt s i == '3' && rngAt s (i+1) '0' '1')

/-- Regex fragment `([01]\d|2[0-3])` at position `i`. -/
def reHour (s : List Char) (i : ℕ) : Bool :=
  ((chAt s i == '0' || chAt s i == '1') && digAt s (i+1)) ||
  (chAt s i == '2' && rngAt s (i+1) '0' '3')

/-- Regex fragment `[0-5]\d` at position `i`. -/
def reMinSec (s : List Char) (i : ℕ) : Bool :=
  rngAt s i '0' '5' && digAt s (i+1)

/-- `TS_RE.match(s)`: the strict timestamp prefix regex. -/
def tsMatch (s : List Char) : Bool :=
  digAt s 0 && digAt s 1 && digAt s 2 && digAt s 3 && (chAt s 4 == '-') &&
  reMonth s 5 && (chAt s 7 == '-') && reDay s 8 &&
  (chAt s 10 == 'T' || chAt s 10 == '_') &&
  reHour s 11 && (chAt s 13 == ':') && reMinSec s 14 &&
  (chAt s 16 == ':') && reMinSec s 17

/-- `DT_RE.match(s)`: the strict date prefix regex. -/
def dtMatch (s : List Char) : Bool :=
  digAt s 0 && digAt s 1 && digAt s 2 && digAt s 3 &&
  (chAt s 4 == '-' || chAt s 4 == '/') && reMonth s 5 &&
  (chAt s 7 == '-' || chAt s 7 == '/') && reDay s 8

/-- `TM_RE.match(s)`: the strict time regex, anchored at both ends with
optional seconds. -/
def tmMatch (s : List Char) : Bool :=
  (decide (s.length = 5) && reHour s 0 && (chAt s 2 == ':' || chAt s 2 == '.') &&
    reMinSec s 3) ||
  (decide (s.length = 8) && reHour s 0 && (chAt s 2 == ':' || chAt s 2 == '.') &&
    reMinSec s 3 && (chAt s 5 == ':' || chAt s 5 == '.') && reMinSec s 6)

/-! ### The granularity keys and the per-run state records -/

/-- The granularity letters `'ymdHMS'` that key the tracker dicts. -/
inductive TKey | y | m | d | H | M | S
deriving DecidableEq

/-- Point update of a `'ymdHMS'`-keyed dict. -/
def TUpd {α : Type} (f : TKey → α) (k : TKey) (v : α) : TKey → α :=
  fun k2 => if k2 = k then v else f k2

/-- `ISO_PARTS`: slice bounds and key of each timestamp resolution. -/
def ISO_PARTS : List (ℕ × ℕ × TKey) :=
  [(0,4,.y),(5,7,.m),(8,10,.d),(11,13,.H),(14,16,.M),(17,19,.S)]

/-- `DATE_PARTS`. -/
def DATE_PARTS : List (ℕ × ℕ × TKey) := [(0,4,.y),(5,7,.m),(8,10,.d)]

/-- `TIME_PARTS`. -/
def TIME_PARTS : List (ℕ × ℕ × TKey) := [(0,2,.H),(3,5,.M),(6,8,.S)]

/-- The `axisx` record of `main`: legend-usable flag `u`, width `m`
(terminal width, or `-x` when given), braille-cell count `M`, active
flags `i`, boundary list `e`, the timestamp change dicts `x`/`a`, the
date dicts `d`/`b` and the time dicts `t`/`c`.  (The placeholder entries
`'X'`, `'D'`, `'T'` of the source dict are never read and are omitted.) -/
structure Axisx where
  u : Bool
  m : ℕ
  M : ℕ
  i : TKey → Bool
  e : List ℤ
  x : TKey → List ℕ
  a : TKey → List (List Char)
  d : TKey → List ℕ
  b : TKey → List (List Char)
  t : TKey → List ℕ
  c : TKey → List (List Char)

/-- The `colle` record of `main`: usable flag `u`, found flag `s`,
first-hit info `f`, hit statistics `l`, format-error counter `e`, and the
(column, first value, last value) triples for the timestamp (`x`,`a`,`X`),
date (`d`,`b`,`D`) and time (`t`,`c`,`T`) fields.  Python initialises the
strings to `None`; every read is guarded by the matching column being
set, so the unset string is embedded as `[]`.  The I/O statistics keys
`B`/`N`/`p`/`P` are set outside the core and are omitted. -/
structure Colle where
  u : Bool
  s : Bool
  f : List ℕ
  l : List ℕ
  e : ℕ
  x : Option ℕ
  a : List Char
  X : List Char
  d : Option ℕ
  b : List Char
  D : List Char
  t : Option ℕ
  c : List Char
  T : List Char

/-- The `grups` record of `main`: summation-usable flag `u`, loaded flag
`l`, and the insertion-ordered bucket map `g`. -/
structure Grups where
  u : Bool
  l : Bool
  g : List (List Char × ℚ)

/-- `l[i] += k` on the statistics list. -/
def bumpAt (l : List ℕ) (i k : ℕ) : List ℕ := l.set i (l.getD i 0 + k)

/-- `uchart.date_time_search`: one detection attempt on the fields `g` of
the current row; `c` is `counter_value` before this row, `cl` the line
number.  Mirrors lines 630-663 of the source. -/
def date_time_search (CSUM : Option TKey) (c : ℕ) (e : Colle) (a : Axisx)
    (g : List (List Char)) (p : Grups) (cl : ℕ) : Colle × Axisx × Grups :=
  if c = 10 then ({e with u := false}, a, p)
  else
    let e := {e with l := bumpAt e.l 0 1}
    let amx := (List.range g.length).filter
      (fun i => is_valid ((g.getD i []).take 19) .ts)
    let e := {e with l := bumpAt e.l 1 amx.length}
    if amx.length = 1 then
      let i0 := amx.getD 0 0
      let w := (g.getD i0 []).take 19
      ({e with a := w, X := w, s := true, f := [cl, c+1], x := some i0},
       {a with u := true},
       if CSUM.isSome then {p with u := true} else p)
    else
      let amd := (List.range g.length).filter
        (fun i => is_valid ((g.getD i []).take 10) .dt)
      let e := {e with l := bumpAt e.l 2 amd.length}
      let ead : Colle × Axisx × Grups :=
        if amd.length = 1 then
          let i0 := amd.getD 0 0
          let w := (g.getD i0 []).take 10
          ({e with b := w, D := w, s := true, f := [cl, c+1], d := some i0},
           {a with u := true},
           if CSUM.isSome then {p with u := true} else p)
        else (e, a, p)
      let e := ead.1
      let a := ead.2.1
      let p := ead.2.2
      let amt := (List.range g.length).filter
        (fun i => is_valid ((g.getD i []).take 8) .ti)
      let e := {e with l := bumpAt e.l 3 amt.length}
      if amt.length = 1 then
        let i0 := amt.getD 0 0
        let w := (g.getD i0 []).take 8
        ({e with c := w, T := w, s := true, f := [cl, c+1], t := some i0},
         {a with u := true},
         if CSUM.isSome then {p with u := true} else p)
      else (e, a, p)

/-- The cascading change-recording loop of `uchart.date_time` (one of the
three `for s1, s2, l in PARTS` loops with the `toend` flag): record
`(c, currentSlice)` into every active unit from the first differing
slice downward. -/
def cascadeGo (iF : TKey → Bool) (cur old : List Char) (c : ℕ) :
    List (ℕ × ℕ × TKey) → Bool → (TKey → List ℕ) → (TKey → List (List Char)) →
    (TKey → List ℕ) × (TKey → List (List Char))
  | [], _, xs, vs => (xs, vs)
  | (s1, s2, l) :: rest, toend, xs, vs =>
    if toend then
      if iF l then
        cascadeGo iF cur old c rest true
          (TUpd xs l (xs l ++ [c])) (TUpd vs l (vs l ++ [pySlice cur s1 s2]))
      else cascadeGo iF cur old c rest true xs vs
    else
      if pySlice old s1 s2 ≠ pySlice cur s1 s2 then
        if iF l then
          cascadeGo iF cur old c rest true
            (TUpd xs l (xs l ++ [c])) (TUpd vs l (vs l ++ [pySlice cur s1 s2]))
        else cascadeGo iF cur old c rest true xs vs
      else cascadeGo iF cur old c rest false xs vs

/-- The timestamp block of the recording phase of `uchart.date_time`
(lines 226-240). -/
def dtRecordX (g : List (List Char)) (c : ℕ) (a : Axisx) (e : Colle) :
    Axisx × Colle :=
  match e.x with
  | some ix =>
    let cur := (g.getD ix []).take 19
    if cur ≠ e.X then
      let r := cascadeGo a.i cur e.X c ISO_PARTS false a.x a.a
      ({a with x := r.1, a := r.2}, {e with X := cur})
    else (a, e)
  | none => (a, e)

/-- The date block of the recording phase (lines 243-257). -/
def dtRecordD (g : List (List Char)) (c : ℕ) (a : Axisx) (e : Colle) :
    Axisx × Colle :=
  match e.d with
  | some idd =>
    let cur := (g.getD idd []).take 10
    if cur ≠ e.D then
      let r := cascadeGo a.i cur e.D c DATE_PARTS false a.d a.b
      ({a with d := r.1, b := r.2}, {e with D := cur})
    else (a, e)
  | none => (a, e)

/-- The time block of the recording phase (lines 259-273). -/
def dtRecordT (g : List (List Char)) (c : ℕ) (a : Axisx) (e : Colle) :
    Axisx × Colle :=
  match e.t with
  | some idt =>
    let cur := (g.getD idt []).take 8
    if cur ≠ e.T then
      let r := cascadeGo a.i cur e.T c TIME_PARTS false a.t a.c
      ({a with t := r.1, c := r.2}, {e with T := cur})
    else (a, e)
  | none => (a, e)

/-- The change-recording phase of `uchart.date_time` (lines 226-273):
the timestamp block when a timestamp column is set, else the date block
then the time block. -/
def dtRecord (g : List (List Char)) (c : ℕ) (a : Axisx) (e : Colle) :
    Axisx × Colle :=
  match e.x with
  | some _ => dtRecordX g c a e
  | none =>
    let ae := dtRecordD g c a e
    dtRecordT g c ae.1 ae.2

/-- The density-prune loop of `uchart.date_time`: a unit whose record
list has grown past `a['m']` is cleared and deactivated. -/
def pruneGo (m : ℕ) : List TKey → (TKey → Bool) → (TKey → List ℕ) →
    (TKey → List (List Char)) →
    (TKey → Bool) × (TKey → List ℕ) × (TKey → List (List Char))
  | [], iF, xs, vs => (iF, xs, vs)
  | k :: ks, iF, xs, vs =>
    if m < (xs k).length then
      pruneGo m ks (TUpd iF k false) (TUpd xs k []) (TUpd vs k [])
    else pruneGo m ks iF xs vs

/-- `p['g'][key] += v` with append-or-accumulate, insertion order kept. -/
def bucketAdd (g : List (List Char × ℚ)) (k : List Char) (v : ℚ) :
    List (List Char × ℚ) :=
  match g with
  | [] => [(k, v)]
  | (k0, v0) :: rest =>
    if k0 = k then (k0, v0 + v) :: rest else (k0, v0) :: bucketAdd rest k v

/-- The bucket update of the summation tail of `uchart.date_time`
(lines 334-354), which touches only `p['g']`.  `none` models the
`NameError` the source raises when `ts` is never assigned: a date field
at index 0 is falsy for `elif e['d']:`, so with no time field no branch
binds `ts`. -/
def dtSumG (CSUM : Option TKey) (g : List (List Char)) (v : ℚ)
    (e : Colle) (p : Grups) : Option Grups :=
  match CSUM with
  | none => some p
  | some key =>
    if e.u && e.s then
      match e.x with
      | some ix =>
        let gg := ISO_PARTS.foldl (fun acc pr =>
          if pr.2.2 = key then bucketAdd acc ((g.getD ix []).take pr.2.1) v
          else acc) p.g
        some {p with g := gg}
      | none =>
        let tso : Option (List Char) :=
          if e.d.isSome && e.t.isSome then
            some ((g.getD (e.d.getD 0) []).take 10 ++
                  ('T' :: (g.getD (e.t.getD 0) []).take 8))
          else
            match e.d with
            | some n =>
              if n ≠ 0 then some ((g.getD n []).take 10 ++ ('T' :: "00:00:00".toList))
              else
                match e.t with
                | some it => some ("0000-00-00T".toList ++ (g.getD it []).take 8)
                | none => none
            | none =>
              match e.t with
              | some it => some ("0000-00-00T".toList ++ (g.getD it []).take 8)
              | none => none
        match tso with
        | none => none
        | some ts =>
          let gg := ISO_PARTS.foldl (fun acc pr =>
            if pr.2.2 = key then bucketAdd acc (ts.take pr.2.1) v else acc) p.g
          some {p with g := gg}
    else some p

/-- The summation tail as seen by the caller: `axisx` and `colle` pass
through unchanged. -/
def dtSum (CSUM : Option TKey) (g : List (List Char)) (a : Axisx) (v : ℚ)
    (e : Colle) (p : Grups) : Option (Axisx × Colle × Grups) :=
  match dtSumG CSUM g v e p with
  | none => none
  | some p2 => some (a, e, p2)

/-- The density-prune block of `uchart.date_time` (lines 277-297): with a
timestamp column prune all six units, else the time units then the date
units. -/
def dtPrune (a : Axisx) (e : Colle) : Axisx :=
  match e.x with
  | some _ =>
    let r := pruneGo a.m [TKey.y, TKey.m, TKey.d, TKey.H, TKey.M, TKey.S]
      a.i a.x a.a
    {a with i := r.1, x := r.2.1, a := r.2.2}
  | none =>
    let a : Axisx :=
      match e.t with
      | some _ =>
        let r := pruneGo a.m [TKey.H, TKey.M, TKey.S] a.i a.t a.c
        {a with i := r.1, t := r.2.1, c := r.2.2}
      | none => a
    match e.d with
    | some _ =>
      let r := pruneGo a.m [TKey.y, TKey.m, TKey.d] a.i a.d a.b
      {a with i := r.1, d := r.2.1, b := r.2.2}
    | none => a

/-- The strict-format check block of `uchart.date_time` (lines 299-311):
the relevant regex is applied to the current prefix and the error counter
incremented on failure. -/
def dtCheckE (g : List (List Char)) (e : Colle) : Colle :=
  match e.x with
  | some ix =>
    if !tsMatch ((g.getD ix []).take 19) then {e with e := e.e + 1} else e
  | none =>
    let e : Colle :=
      match e.d with
      | some idd =>
        if !dtMatch ((g.getD idd []).take 10) then {e with e := e.e + 1} else e
      | none => e
    match e.t with
    | some idt =>
      if !tmMatch ((g.getD idt []).take 8) then {e with e := e.e + 1} else e
    | none => e

/-- The every-100th-sample reset block of `uchart.date_time`
(lines 319-332): when a whole category has no active unit its record dict
is replaced by a fresh empty one (the active flags and value dicts are
not touched). -/
def dtReset (a : Axisx) (e : Colle) : Axisx :=
  match e.x with
  | some _ =>
    if !([TKey.y, TKey.m, TKey.d, TKey.H, TKey.M, TKey.S].any a.i) then
      {a with x := fun _ => []}
    else a
  | none =>
    let a : Axisx :=
      match e.d with
      | some _ =>
        if !([TKey.y, TKey.m, TKey.d].any a.i) then {a with d := fun _ => []}
        else a
      | none => a
    match e.t with
    | some _ =>
      if !([TKey.H, TKey.M, TKey.S].any a.i) then {a with t := fun _ => []}
      else a
    | none => a

/-- `uchart.date_time`: the granularity tracker and bucket summer, one
call per processed sample (`c` = `counter_value` after the increment). -/
def date_time (CSUM : Option TKey) (g : List (List Char)) (c : ℕ) (a : Axisx)
    (v : ℚ) (e : Colle) (p : Grups) : Option (Axisx × Colle × Grups) :=
  let ae := dtRecord g c a e
  let a := ae.1
  let e := ae.2
  if c % 5 = 0 then
    let a := dtPrune a e
    let e := dtCheckE g e
    if 0 < e.e then
      some (a, {e with u := false}, {p with u := false, g := []})
    else
      let a := if c % 100 = 0 then dtReset a e else a
      dtSum CSUM g a v e p
  else dtSum CSUM g a v e p

/-! ### The per-row driver of `main` and the X-axis legend -/

/-- The loop state of `main` relevant to the tracker: `counter_value`,
the three records, and the collected raw values. -/
structure MState where
  cv : ℕ
  colle : Colle
  axisx : Axisx
  grups : Grups
  raw : List ℚ

/-- `colle` as initialised in `main` (lines 843-864). -/
def colle0 : Colle :=
  { u := true, s := false, f := [0, 0], l := [0, 0, 0, 0], e := 0,
    x := none, a := [], X := [], d := none, b := [], D := [],
    t := none, c := [], T := [] }

/-- `axisx` as initialised in `main` (lines 866-883); `W` is the width
`a['m']` (the terminal width, or `-x` when given). -/
def axisx0 (W : ℕ) : Axisx :=
  { u := false, m := W, M := 0, i := fun _ => true, e := [],
    x := fun _ => [], a := fun _ => [], d := fun _ => [], b := fun _ => [],
    t := fun _ => [], c := fun _ => [] }

/-- `grups` as initialised in `main` (lines 885-888). -/
def grups0 : Grups := { u := false, l := false, g := [] }

/-- The initial loop state. -/
def mstate0 (W : ℕ) : MState := ⟨0, colle0, axisx0 W, grups0, []⟩

/-- One accepted row of `main`'s loop (lines 932-970) in column mode with
no time filters and a numeric value: run the detector while nothing is
adopted and time use is not abandoned, then run the tracker when
time-awareness is usable.  `value` is the already-parsed number of the
selected column; `counter_line` equals `cv + 1` in an all-rows-accepted
run. -/
def processRow (CSUM : Option TKey) (st : MState) (fields : List (List Char))
    (value : ℚ) : Option MState :=
  let eap : Colle × Axisx × Grups :=
    if !st.colle.s && st.colle.u then
      date_time_search CSUM st.cv st.colle st.axisx fields st.grups (st.cv + 1)
    else (st.colle, st.axisx, st.grups)
  let colle := eap.1
  let axisx := eap.2.1
  let grups := eap.2.2
  let cv := st.cv + 1
  if colle.u then
    match date_time CSUM fields cv axisx value colle grups with
    | none => none
    | some r => some ⟨cv, r.2.1, r.1, r.2.2, st.raw ++ [value]⟩
  else some ⟨cv, colle, axisx, grups, st.raw ++ [value]⟩

/-- Fold `processRow` over a list of (fields, value) rows. -/
def processRows (CSUM : Option TKey) : MState → List (List (List Char) × ℚ) →
    Option MState
  | st, [] => some st
  | st, r :: rest =>
    match processRow CSUM st r.1 r.2 with
    | none => none
    | some st2 => processRows CSUM st2 rest

/-- The `LEGEND` captions (each 9 characters). -/
def LEGEND (k : TKey) : List Char :=
  match k with
  | .y => "years >  ".toList
  | .m => "months > ".toList
  | .d => "days >   ".toList
  | .H => "hours >  ".toList
  | .M => "minutes >".toList
  | .S => "seconds >".toList

/-- The `SUM_LEGEND` captions (each 9 characters). -/
def SUM_LEGEND (k : TKey) : List Char :=
  match k with
  | .y => "year Σ   ".toList
  | .m => "month Σ  ".toList
  | .d => "day Σ    ".toList
  | .H => "hour Σ   ".toList
  | .M => "min Σ    ".toList
  | .S => "sec Σ    ".toList

/-- `n` blanks. -/
def spaces (n : ℕ) : List Char := List.replicate n ' '

/-- `'─' * n`. -/
def dashes (n : ℕ) : List Char := List.replicate n '─'

/-- Iteration order `'ymdHMS'` of the legend dict comprehensions. -/
def keyOrder : List TKey := [.y, .m, .d, .H, .M, .S]

/-- One legend dict comprehension
`{k: f[k] for k in 'ymdHMS' if 0 < len(f[k]) < ml}`. -/
def legFilter {α : Type} (f : TKey → List α) (ml : ℕ) : List (TKey × List α) :=
  keyOrder.filterMap (fun k =>
    let lst := f k
    if 0 < lst.length ∧ lst.length < ml then some (k, lst) else none)

/-- Python `max(dict, key=lambda k: len(dict[k]))`: the first key of
maximal list length in iteration order (unreachable default for the
empty dict, which would raise). -/
def maxKeyByLen {α : Type} : List (TKey × List α) → TKey
  | [] => TKey.y
  | p0 :: rest =>
    (rest.foldl (fun best pr =>
      if best.2 < pr.2.length then (pr.1, pr.2.length) else best)
      (p0.1, p0.2.length)).1

/-- Dict lookup (the keys found by `legFilter` are present). -/
def lookupKey {α : Type} (l : List (TKey × List α)) (k : TKey) : List α :=
  match l.find? (fun pr => decide (pr.1 = k)) with
  | some pr => pr.2
  | none => []

/-- The `for i, colu in enumerate(precisely_list)` search of
`print_x_legend`: first index whose boundary reaches `point`; when the
loop runs out, `i` holds the last index (an empty list raises in Python;
the caller always has boundaries). -/
def legPointIdx (pe : List ℤ) (point : ℕ) : ℕ :=
  match pe.findIdx? (fun colu => decide ((point : ℤ) ≤ colu)) with
  | some i => i
  | none => pe.length - 1

/-- Or a tick bit into cell `tc` of the tick line. -/
def setTick (line : List Char) (tc : ℕ) (bit : ℕ) : List Char :=
  let cur := if line.getD tc ' ' ≠ ' ' then (line.getD tc ' ').toNat - 0x2800 else 0
  line.set tc (Char.ofNat (0x2800 + (cur ||| bit)))

/-- The tick-placing loop of `print_x_legend` (lines 417-433): returns
`line1` and `leg_point_pos`. -/
def buildTicks (pe : List ℤ) (positions : List ℕ) (b : ℕ) :
    List Char × List ℕ :=
  positions.foldl (fun st point =>
    let i := legPointIdx pe point
    let term_col := i / 2
    let bit : ℕ := if i % 2 = 0 then 1 else 8
    (setTick st.1 term_col bit, st.2 ++ [term_col]))
    (List.replicate b ' ', [])

/-- `s.lstrip('0') or '0'`. -/
def stripZeros (s : List Char) : List Char :=
  let t := s.dropWhile (· = '0')
  if t = [] then ['0'] else t

/-- One label-painting step of `print_x_legend` (lines 440-454): paint
`val` right of column `pos` unless any needed character cell (plus the
`space` collision margin) is out of range or already used. -/
def paintLabel (line2 : List Char) (space pos : ℕ) (val : List Char) :
    List Char :=
  let ok := (List.range (val.length + space)).all (fun i =>
    decide (pos + i + 1 < line2.length) && (line2.getD (pos + i + 1) ' ' == ' '))
  if ok then (val.enum).foldl (fun ln pr => ln.set (pos + pr.1 + 1) pr.2) line2
  else line2

/-- Map ASCII digits to Unicode subscript digits (the `maketrans` table). -/
def subDigit (c : Char) : Char :=
  if '0' ≤ c ∧ c ≤ '9' then Char.ofNat (0x2080 + (c.toNat - 48)) else c

/-- `uchart.print_x_legend` as the list of printed lines.  The Python
code computes the d/t dicts first and then overwrites from the x dict
when a timestamp column exists; the net dict is the one modelled here.
With no detected column at all the Python code raises `NameError` (it is
only called when `axisx['u']` is set); that case is embedded as the
empty dict. -/
def print_x_legend (CSUM : Option TKey) (SPACE : Option ℕ) (a : Axisx)
    (e : Colle) (p : Grups) (l b c : ℕ) : List (List Char) :=
  match CSUM with
  | some key => [SUM_LEGEND key ++ spaces (l - 9) ++ (' ' :: '└' :: dashes b)]
  | none =>
  if b < 10 then [spaces l ++ (' ' :: '└' :: dashes b)]
  else
    let ml := b / 2
    let xv : List (TKey × List ℕ) × List (TKey × List (List Char)) :=
      if e.x.isSome then (legFilter a.x ml, legFilter a.a ml)
      else if e.d.isSome || e.t.isSome then
        (legFilter (fun k =>
          if k = TKey.y ∨ k = TKey.m ∨ k = TKey.d then a.d k else a.t k) ml,
         legFilter (fun k =>
          if k = TKey.y ∨ k = TKey.m ∨ k = TKey.d then a.b k else a.c k) ml)
      else ([], [])
    let x := xv.1
    let v := xv.2
    if x.length = 0 then [spaces l ++ (' ' :: '└' :: dashes b)]
    else
      let lkey := if 1 < x.length then maxKeyByLen x else (x.getD 0 (TKey.y, [])).1
      let vkey := if 1 < x.length then maxKeyByLen v else (v.getD 0 (TKey.y, [])).1
      let positions := lookupKey x lkey
      let vvals := lookupKey v vkey
      let tl := buildTicks a.e positions b
      let space := SPACE.getD 2
      let vsr := (vvals.map stripZeros).reverse
      let line2 := (tl.2.reverse.zip vsr).foldl
        (fun ln pr => paintLabel ln space pr.1 pr.2) tl.1
      let linex := line2.map subDigit
      [LEGEND lkey ++ spaces (l - 9) ++ (' ' :: '└' :: dashes b),
       spaces (l + 2) ++ linex]

/-! ### Definitions modelled from the spec's words (for refinement checks) -/

/-- Modelled from the spec: the claimed left-half dot mapping
"{subRow 0→bit0, 1→bit1, 2→bit2, 3→bit6}" (C1's wording), indexed by the
sub-row. -/
def dot_map_left_claim : List ℕ := [0, 1, 2, 6]

/-- Modelled from the spec: the claimed right-half dot mapping
"{0→bit3, 1→bit4, 2→bit5, 3→bit7}" (C1's wording). -/
def dot_map_right_claim : List ℕ := [3, 4, 5, 7]

/-- State of the detector as the spec describes it: per-category
candidate sets accumulated over all rows seen so far, plus the adopted
columns. -/
structure SpecDetect where
  rows : ℕ
  xc : Option (List ℕ)
  dc : Option (List ℕ)
  tc : Option (List ℕ)
  x : Option ℕ
  d : Option ℕ
  t : Option ℕ

/-- Field indices of the current row that satisfy one validator (the
per-row candidate set). -/
def rowCands (g : List (List Char)) (mode : VMode) (n : ℕ) : List ℕ :=
  (List.range g.length).filter (fun i => is_valid ((g.getD i []).take n) mode)

/-- Intersect the accumulated candidate set with the current row's. -/
def interCands (prev : Option (List ℕ)) (cur : List ℕ) : List ℕ :=
  match prev with
  | none => cur
  | some l => l.filter (fun i => decide (i ∈ cur))

/-- Modelled from the spec: one detection row as C4 words it — "for each
category the detector recomputes the set of field indices whose values
satisfy that category's validator in every row seen so far, adopts a
field for a category the instant exactly one candidate remains for it
while continuing to derive the other categories on later rows", over the
first 10 accepted rows. -/
def specDetectStep (st : SpecDetect) (g : List (List Char)) : SpecDetect :=
  if 10 ≤ st.rows then st
  else
    let st := {st with rows := st.rows + 1}
    let st :=
      if st.x.isNone then
        let cs := interCands st.xc (rowCands g .ts 19)
        {st with xc := some cs,
                 x := if cs.length = 1 then some (cs.getD 0 0) else none}
      else st
    let st :=
      if st.d.isNone then
        let cs := interCands st.dc (rowCands g .dt 10)
        {st with dc := some cs,
                 d := if cs.length = 1 then some (cs.getD 0 0) else none}
      else st
    if st.t.isNone then
      let cs := interCands st.tc (rowCands g .ti 8)
      {st with tc := some cs,
               t := if cs.length = 1 then some (cs.getD 0 0) else none}
    else st

/-- The spec-worded detector over a row sequence. -/
def specDetectRun (rows : List (List (List Char))) : SpecDetect :=
  rows.foldl specDetectStep ⟨0, none, none, none, none, none, none⟩

/-! ### Concrete input scenarios -/

/-- A timestamp `2024-01-01T00:00:0⟨n⟩` (seconds digit `n`). -/
def secondsRow (n : ℕ) : List Char :=
  "2024-01-01T00:00:0".toList ++ [Char.ofNat (48 + n % 10)]

/-- Four-digit zero-padded decimal rendering. -/
def pad4 (n : ℕ) : List Char :=
  [Char.ofNat (48 + n / 1000 % 10), Char.ofNat (48 + n / 100 % 10),
   Char.ofNat (48 + n / 10 % 10), Char.ofNat (48 + n % 10)]

/-- A timestamp `⟨year n⟩-01-01T00:00:00`. -/
def yearRow (n : ℕ) : List Char := pad4 n ++ "-01-01T00:00:00".toList

/-- Ten rows `[timestamp, "5"]` whose seconds change on every row. -/
def densityRunRows : List (List (List Char) × ℚ) :=
  (List.range 10).map (fun i => ([secondsRow i, ['5']], (5 : ℚ)))

/-- 101 rows whose year changes on every row. -/
def centuryRunRows : List (List (List Char) × ℚ) :=
  (List.range 101).map (fun i => ([yearRow (i+1), ['5']], (5 : ℚ)))

/-- Four well-formed timestamp rows, a malformed fifth row, and fifteen
further plain numeric rows (twenty samples in all). -/
def formatErrorRows : List (List (List Char) × ℚ) :=
  ((List.range 4).map (fun i => ([secondsRow i, ['7']], (7 : ℚ)))) ++
  [(["bad".toList, ['7']], (7 : ℚ))] ++
  ((List.range 15).map (fun _ => ([['x'], ['7']], (7 : ℚ))))

/-- The chart tail of the format-error run: twenty values in width 20
compress with factor 1, `draw_graph` passes `l = 9` (six integer digits,
no sign) and `b = (20+1)/2 = 10` braille cells, and calls
`print_x_legend` because `axisx['u']` is still set. -/
def formatErrorLegend : List (List Char) :=
  match processRows none (mstate0 20) formatErrorRows with
  | none => []
  | some st =>
    print_x_legend none none
      {st.axisx with e := (average_values_in_groups st.raw 1).2, M := 10}
      st.colle st.grups 9 10 1

/-- A row with two date-valid fields (and a numeric third). -/
def twoDatesRow1 : List (List Char) :=
  ["2024-01-01".toList, "2024-01-02".toList, ['7']]

/-- A row whose date-valid fields are indices 0 and 2. -/
def twoDatesRow2 : List (List Char) :=
  ["2024-01-03".toList, ['x'], "2024-01-04".toList]

/-! ### Theorems -/

/-- Length of the precise-mode slicing loop: one slice per boundary. -/
theorem slices_go_length (raw : List ℚ) :
    ∀ (bs : List ℤ) (s : ℤ), (slices_go raw s bs).length = bs.length := by
  intro bs
  induction bs with
  | nil => intro s; rfl
  | cons b bs ih => intro s; simp [slices_go, ih]

/-- Batteries' `Rat.floor` is the floor. -/
theorem ratFloor_eq (q : ℚ) : Rat.floor q = ⌊q⌋ := by
  rw [Rat.floor_def', Rat.floor_def]

/-- `pyRound` through `Int.floor`, for evaluation by `norm_num`. -/
theorem pyRound_eq (q : ℚ) :
    pyRound q =
      if q - (⌊q⌋ : ℚ) < 1/2 then ⌊q⌋
      else if (1:ℚ)/2 < q - (⌊q⌋ : ℚ) then ⌊q⌋ + 1
      else if ⌊q⌋ % 2 = 0 then ⌊q⌋ else ⌊q⌋ + 1 := by
  unfold pyRound
  rw [ratFloor_eq]

/-- `ratTrunc` through `Int.floor`. -/
theorem ratTrunc_eq (q : ℚ) :
    ratTrunc q = if q < 0 then -⌊-q⌋ else ⌊q⌋ := by
  unfold ratTrunc
  rw [ratFloor_eq, ratFloor_eq]

/-- `round` of an integer is itself. -/
theorem pyRound_intCast (n : ℤ) : pyRound ((n : ℚ)) = n := by
  rw [pyRound_eq]
  norm_num

/-- The precise-mode boundary list for ten samples and width 3. -/
theorem precise_bounds_10_3 :
    (group_values_for_precisely ((List.range 10).map (fun (n : ℕ) => (n : ℚ))) 3).2 =
      [2, 3, 5, 7, 8, 10] := by
  have hlen : ((List.range 10).map (fun (n : ℕ) => (n : ℚ))).length = 10 := by simp
  simp only [group_values_for_precisely, hlen]
  rw [show List.range (3 * 2) = [0, 1, 2, 3, 4, 5] from rfl]
  simp only [List.map]
  norm_num [pyRound_eq]

/-- C3: In precise mode the compressor produces exactly `2·width` units,
with boundaries `boundary[i] = round((i+1)·sampleCount/(2·width))`
(Python `round`), each unit the half-open slice between consecutive
boundaries starting at 0; for `sampleCount = 10`, `width = 3` the
boundaries are `[2,3,5,7,8,10]` and the bin sizes `[2,1,2,2,1,2]`. -/
theorem C3_theorem :
    (∀ (raw : List ℚ) (width : ℕ),
      (group_values_for_precisely raw width).1.length = 2 * width ∧
      (group_values_for_precisely raw width).2 =
        (List.range (width * 2)).map
          (fun (i : ℕ) => pyRound (((i : ℚ) + 1) * (raw.length : ℚ) / ((width : ℚ) * 2)))) ∧
    (group_values_for_precisely ((List.range 10).map (fun (n : ℕ) => (n : ℚ))) 3).2 =
      [2, 3, 5, 7, 8, 10] ∧
    ((group_values_for_precisely ((List.range 10).map (fun (n : ℕ) => (n : ℚ))) 3).1).map
      List.length = [2, 1, 2, 2, 1, 2] := by
  refine ⟨fun raw width => ⟨?_, rfl⟩, precise_bounds_10_3, ?_⟩
  · show (slices_go _ _ _).length = _
    rw [slices_go_length, List.length_map, List.length_range, Nat.mul_comm]
  · have h := precise_bounds_10_3
    simp only [group_values_for_precisely] at h ⊢
    rw [h]
    decide

/-- A braille cell with exactly one dot `i` set. -/
theorem braille_single (i : ℕ) (hi : i < 8) :
    create_braille_char ((List.replicate 8 false).set i true) = 0x2800 + 2 ^ i := by
  interval_cases i <;> decide

/-- `apply_unit` on a singleton value list. -/
theorem apply_unit_single (dm : List ℕ) (v : ℚ) (row : ℤ) (mn mx : ℚ) (h : ℤ)
    (dots : List Bool) :
    apply_unit dm [v] row mn mx h dots =
      (match get_dot_for_value (some v) row mn mx h with
       | some y => dots.set (dm.getD y.toNat 0) true
       | none => dots) := rfl

/-- `apply_unit` on an empty unit. -/
theorem apply_unit_nil (dm : List ℕ) (row : ℤ) (mn mx : ℚ) (h : ℤ)
    (dots : List Bool) : apply_unit dm [] row mn mx h dots = dots := rfl

/-- `get_dot_for_value` on a present value, unfolded. -/
theorem gdfv_eq (v : ℚ) (row : ℤ) (mn mx : ℚ) (H : ℤ) :
    get_dot_for_value (some v) row mn mx H =
      (if H - 1 - Int.fdiv (ratTrunc ((if mx - mn = 0 then (1:ℚ)/2
          else (v - mn) / (mx - mn)) * (((H * 4 : ℤ) : ℚ) - 1))) 4 ≠ row
       then none
       else some (ratTrunc ((if mx - mn = 0 then (1:ℚ)/2
          else (v - mn) / (mx - mn)) * (((H * 4 : ℤ) : ℚ) - 1)) % 4)) := rfl

/-- C1 (amended): for a plotted value (`min ≤ value ≤ max`, positive height)
the renderer computes `pixelRow = ⌊normalized·(4·height−1)⌋`, draws in text
row `height−1−(pixelRow div 4)` with `subRow = pixelRow mod 4` (0 = bottom),
and sets the half-column bits by the mappings `{0→bit6,1→bit2,2→bit1,3→bit0}`
(left) and `{0→bit7,1→bit5,2→bit4,3→bit3}` (right), printing the cell as
codepoint `0x2800 + mask`. -/
theorem C1_theorem (v mn mx : ℚ) (H row : ℤ) (hH : 0 < H) (h1 : mn ≤ v)
    (h2 : v ≤ mx) :
    get_dot_for_value (some v) row mn mx H =
      (if H - 1 - Int.fdiv (⌊(if mx - mn = 0 then (1:ℚ)/2 else (v - mn) / (mx - mn)) *
          (4 * (H : ℚ) - 1)⌋) 4 = row
       then some ((⌊(if mx - mn = 0 then (1:ℚ)/2 else (v - mn) / (mx - mn)) *
          (4 * (H : ℚ) - 1)⌋) % 4)
       else none) ∧
    (∀ y : ℤ, get_dot_for_value (some v) row mn mx H = some y →
      cell_char [v] [] row mn mx H = 0x2800 + 2 ^ (dot_map_left.getD y.toNat 0) ∧
      cell_char [] [v] row mn mx H = 0x2800 + 2 ^ (dot_map_right.getD y.toNat 0)) ∧
    dot_map_left = [6, 2, 1, 0] ∧ dot_map_right = [7, 5, 4, 3] := by
  have hnorm : 0 ≤ (if mx - mn = 0 then (1:ℚ)/2 else (v - mn) / (mx - mn)) := by
    split
    · norm_num
    · exact div_nonneg (by linarith) (by linarith)
  have hHq : (1 : ℚ) ≤ (H : ℚ) := by exact_mod_cast hH
  have hprod : 0 ≤ (if mx - mn = 0 then (1:ℚ)/2 else (v - mn) / (mx - mn)) *
      (((H * 4 : ℤ) : ℚ) - 1) := by
    refine mul_nonneg hnorm ?_
    push_cast
    linarith
  have htr : ratTrunc ((if mx - mn = 0 then (1:ℚ)/2 else (v - mn) / (mx - mn)) *
      (((H * 4 : ℤ) : ℚ) - 1)) =
      ⌊(if mx - mn = 0 then (1:ℚ)/2 else (v - mn) / (mx - mn)) *
        (4 * (H : ℚ) - 1)⌋ := by
    rw [ratTrunc_eq, if_neg (not_lt.mpr hprod)]
    congr 1
    push_cast
    ring
  refine ⟨?_, ?_, rfl, rfl⟩
  · rw [gdfv_eq, htr]
    set F := ⌊(if mx - mn = 0 then (1:ℚ)/2 else (v - mn) / (mx - mn)) *
      (4 * (H : ℚ) - 1)⌋ with hF
    by_cases hr : H - 1 - Int.fdiv F 4 = row <;> simp [hr]
  · intro y hy
    rw [gdfv_eq, htr] at hy
    set F := ⌊(if mx - mn = 0 then (1:ℚ)/2 else (v - mn) / (mx - mn)) *
      (4 * (H : ℚ) - 1)⌋ with hF
    by_cases hr : H - 1 - Int.fdiv F 4 ≠ row
    · rw [if_pos hr] at hy
      cases hy
    · rw [if_neg hr] at hy
      have hyv : F % 4 = y := Option.some.inj hy
      have hy4 : y.toNat < 4 := by
        have e1 : F % 4 < 4 := Int.emod_lt_of_pos F (by norm_num)
        have e2 : (0:ℤ) ≤ F % 4 := Int.emod_nonneg F (by norm_num)
        omega
      constructor
      · rw [cell_char, apply_unit_nil, apply_unit_single]
        rw [gdfv_eq, htr, if_neg hr, hyv]
        have hlt : dot_map_left.getD y.toNat 0 < 8 := by
          interval_cases h : y.toNat <;> decide
        exact braille_single _ hlt
      · rw [cell_char, apply_unit_single]
        rw [gdfv_eq, htr, if_neg hr, hyv, apply_unit_nil]
        have hlt : dot_map_right.getD y.toNat 0 < 8 := by
          interval_cases h : y.toNat <;> decide
        exact braille_single _ hlt

/-- The bottom value maps to `subRow 0`. -/
theorem gdfv_bottom : get_dot_for_value (some 0) 0 0 10 1 = some 0 := by
  simp only [get_dot_for_value, ratTrunc_eq]
  norm_num

/-- C1 counterexample: plotting the minimum value (`subRow 0`, bottom) with
height 1 yields codepoint `0x2840` (bit 6) for a left half-column and
`0x2880` (bit 7) for a right one, whereas the claimed mappings
(`subRow 0→bit0` left, `0→bit3` right) predict `0x2801` and `0x2808`. -/
theorem C1_counterexample :
    get_dot_for_value (some 0) 0 0 10 1 = some 0 ∧
    cell_char [0] [] 0 0 10 1 = 0x2840 ∧
    cell_char [] [0] 0 0 10 1 = 0x2880 ∧
    0x2800 + 2 ^ (dot_map_left_claim.getD 0 0) = 0x2801 ∧
    0x2800 + 2 ^ (dot_map_right_claim.getD 0 0) = 0x2808 ∧
    (0x2840 : ℕ) ≠ 0x2801 ∧ (0x2880 : ℕ) ≠ 0x2808 := by
  refine ⟨gdfv_bottom, ?_, ?_, by decide, by decide, by decide, by decide⟩
  · rw [cell_char, apply_unit_nil, apply_unit_single, gdfv_bottom]
    decide
  · rw [cell_char, apply_unit_single, gdfv_bottom, apply_unit_nil]
    decide

/-- C1 witness: the amended theorem at `v = 0`, `min = 0`, `max = 10`,
`height = 1`, `row = 0`. -/
theorem C1_witness :
    (0 : ℤ) < 1 ∧ (0 : ℚ) ≤ 0 ∧ (0 : ℚ) ≤ 10 ∧
    cell_char [0] [] 0 0 10 1 = 0x2800 + 2 ^ (dot_map_left.getD 0 0) :=
  ⟨by norm_num, le_refl _, by norm_num,
   ((C1_theorem 0 0 10 1 0 (by norm_num) (le_refl _) (by norm_num)).2.1 0
     gdfv_bottom).1⟩

/-- `reducef` never exceeds the incoming precision. -/
theorem reducef_le (p : List (List Char)) (f : ℕ) : reducef p f ≤ f := by
  unfold reducef
  split
  · exact le_refl f
  · exact min_le_right _ f

/-- C9 (amended): re-running the precision-reduction step on the labels
re-formatted at the reduced precision `f'` returns at most `f'` — the
step never increases precision — but it is not idempotent: re-formatting
at `f'` can collapse the adjacent pair that determined `f'` and reduce
further. -/
theorem C9_theorem (vals : List ℚ) (f : ℕ) :
    reducef (vals.map (fun v2 => formatFixed v2
        (reducef (vals.map (fun v1 => formatFixed v1 f)) f)))
      (reducef (vals.map (fun v1 => formatFixed v1 f)) f) ≤
      reducef (vals.map (fun v1 => formatFixed v1 f)) f :=
  reducef_le _ _

/-- `0.19996` printed at five decimals. -/
theorem ff_a5 : formatFixed (19996/100000 : ℚ) 5 = "0.19996".toList := by
  have habs : |(19996/100000 : ℚ)| * (10:ℚ)^5 = ((19996 : ℤ) : ℚ) := by
    rw [abs_of_nonneg (by norm_num : (0:ℚ) ≤ 19996/100000)]
    norm_num
  simp only [formatFixed, habs, pyRound_intCast,
    if_neg (by norm_num : ¬ ((19996/100000 : ℚ) < 0))]
  decide

/-- `0.2` printed at five decimals. -/
theorem ff_b5 : formatFixed (1/5 : ℚ) 5 = "0.20000".toList := by
  have habs : |(1/5 : ℚ)| * (10:ℚ)^5 = ((20000 : ℤ) : ℚ) := by
    rw [abs_of_nonneg (by norm_num : (0:ℚ) ≤ 1/5)]
    norm_num
  simp only [formatFixed, habs, pyRound_intCast,
    if_neg (by norm_num : ¬ ((1/5 : ℚ) < 0))]
  decide

/-- `0.19996` printed at one decimal rounds up to `0.2`. -/
theorem ff_a1 : formatFixed (19996/100000 : ℚ) 1 = "0.2".toList := by
  have habs : |(19996/100000 : ℚ)| * (10:ℚ)^1 = (4999/2500 : ℚ) := by
    rw [abs_of_nonneg (by norm_num : (0:ℚ) ≤ 19996/100000)]
    norm_num
  have hr : pyRound (4999/2500 : ℚ) = 2 := by
    rw [pyRound_eq]
    norm_num
  simp only [formatFixed, habs, hr,
    if_neg (by norm_num : ¬ ((19996/100000 : ℚ) < 0))]
  decide

/-- `0.2` printed at one decimal. -/
theorem ff_b1 : formatFixed (1/5 : ℚ) 1 = "0.2".toList := by
  have habs : |(1/5 : ℚ)| * (10:ℚ)^1 = ((2 : ℤ) : ℚ) := by
    rw [abs_of_nonneg (by norm_num : (0:ℚ) ≤ 1/5)]
    norm_num
  simp only [formatFixed, habs, pyRound_intCast,
    if_neg (by norm_num : ¬ ((1/5 : ℚ) < 0))]
  decide

/-- C9 counterexample: for the legend values `[0.19996, 0.2]` at starting
precision 5 the reduction step returns `f' = 1`, but re-running it on the
labels re-formatted at precision 1 (both print as `0.2`) returns 0, not
`f' = 1`: the reduction is not idempotent. -/
theorem C9_counterexample :
    reducef (([(19996/100000 : ℚ), 1/5]).map (fun v1 => formatFixed v1 5)) 5 = 1 ∧
    reducef (([(19996/100000 : ℚ), 1/5]).map (fun v2 => formatFixed v2 1)) 1 = 0 ∧
    (0 : ℕ) ≠ 1 := by
  simp only [List.map, ff_a5, ff_b5, ff_a1, ff_b1]
  exact ⟨by decide, by decide, by decide⟩

/-- C10: whenever the chart body is narrower than 10 braille cells the
X-axis legend prints the bare axis and returns — no tick bits, no time
labels, whatever the time-awareness state — while in summation mode the
static category caption is printed before (so regardless of) the width
check. -/
theorem C10_theorem (CSUM : Option TKey) (SPACE : Option ℕ) (a : Axisx)
    (e : Colle) (p : Grups) (l b c : ℕ) (hb : b < 10) :
    print_x_legend CSUM SPACE a e p l b c =
      (match CSUM with
       | some key => [SUM_LEGEND key ++ spaces (l - 9) ++ (' ' :: '└' :: dashes b)]
       | none => [spaces l ++ (' ' :: '└' :: dashes b)]) ∧
    (∀ (key : TKey) (b2 : ℕ), CSUM = some key →
      print_x_legend CSUM SPACE a e p l b2 c =
        [SUM_LEGEND key ++ spaces (l - 9) ++ (' ' :: '└' :: dashes b2)]) := by
  constructor
  · cases CSUM with
    | some key => rfl
    | none =>
      simp only [print_x_legend]
      rw [if_pos hb]
  · intro key b2 hc
    subst hc
    rfl

/-- C10 witness: the theorem at `b = 5`, no summation mode. -/
theorem C10_witness :
    (5 : ℕ) < 10 ∧
    print_x_legend none none (axisx0 3) colle0 grups0 9 5 1 =
      [spaces 9 ++ (' ' :: '└' :: dashes 5)] :=
  ⟨by decide,
   (C10_theorem none none (axisx0 3) colle0 grups0 9 5 1 (by decide)).1⟩

/-- C8: with a date field detected at index 0 and no time field, summation
mode crashes (`ts` is referenced before assignment, because `elif e['d']:`
is falsy for column index 0): the run returns no state.  The same single
row with the date field at index 1 is summed into one bucket. -/
theorem C8_theorem :
    (processRows (some TKey.d) (mstate0 40)
      [(["2024-01-01".toList, ['5']], (5 : ℚ))]).isNone = true ∧
    (processRows (some TKey.d) (mstate0 40)
      [([['5'], "2024-01-01".toList], (5 : ℚ))]).isSome = true ∧
    ((processRows (some TKey.d) (mstate0 40)
      [([['5'], "2024-01-01".toList], (5 : ℚ))]).getD (mstate0 0)).grups.g.length
      = 1 := by
  refine ⟨by decide, by decide, by decide⟩

/-- Concatenating the multi-mode groups restores the input. -/
theorem multi_groups_join (k : ℕ) :
    ∀ (fuel : ℕ) (l : List ℚ) (i : ℤ), l.length ≤ fuel →
      (multi_groups_go k fuel l i).1.flatten = l := by
  intro fuel
  induction fuel with
  | zero =>
    intro l i hl
    have : l = [] := List.eq_nil_of_length_eq_zero (Nat.le_zero.mp hl)
    subst this
    rfl
  | succ f ih =>
    intro l i hl
    cases l with
    | nil => rfl
    | cons x xs =>
      simp only [List.length_cons] at hl
      simp only [multi_groups_go, List.flatten_cons]
      rw [ih (xs.drop k) (i + (k+1)) (by simp only [List.length_drop]; omega)]
      simp [List.take_append_drop]

/-- The multi-mode group count is bounded when the groups cover the input. -/
theorem multi_groups_len (k : ℕ) :
    ∀ (m fuel : ℕ) (l : List ℚ) (i : ℤ), l.length ≤ fuel →
      l.length ≤ (k+1) * m → (multi_groups_go k fuel l i).1.length ≤ m := by
  intro m
  induction m with
  | zero =>
    intro fuel l i _ hm
    have : l = [] := List.eq_nil_of_length_eq_zero (by omega)
    subst this
    cases fuel <;> simp [multi_groups_go]
  | succ m ih =>
    intro fuel l i hf hm
    cases l with
    | nil => cases fuel <;> simp [multi_groups_go]
    | cons x xs =>
      cases fuel with
      | zero => simp at hf
      | succ f =>
        simp only [List.length_cons] at hf hm
        have hmul : (k+1) * (m+1) = (k+1) * m + (k+1) := by ring
        simp only [multi_groups_go, List.length_cons]
        have := ih f (xs.drop k) (i + (k+1))
          (by simp only [List.length_drop]; omega)
          (by simp only [List.length_drop]; omega)
        omega

/-- Mean mode equals multi mode with each group replaced by its mean. -/
theorem avg_groups_eq_map (k : ℕ) :
    ∀ (fuel : ℕ) (l : List ℚ) (i : ℤ),
      (avg_groups_go k fuel l i).1 =
        ((multi_groups_go k fuel l i).1).map (fun g => g.sum / (g.length : ℚ)) := by
  intro fuel
  induction fuel with
  | zero => intro l i; cases l <;> rfl
  | succ f ih =>
    intro l i
    cases l with
    | nil => rfl
    | cons x xs => simp only [avg_groups_go, multi_groups_go, List.map, ih]

/-- The compression factor covers the sample count. -/
theorem compression_factor_covers (n m : ℕ) (hm : 0 < m) :
    n ≤ compression_factor n m * m := by
  have hd := Nat.div_add_mod (n + m - 1) m
  have hr := Nat.mod_lt (n + m - 1) hm
  unfold compression_factor
  by_cases h : n > m
  · rw [if_pos h]
    show n ≤ (if (n + m - 1) / m = 0 then 1 else (n + m - 1) / m) * m
    split_ifs with hc
    · rw [hc, Nat.mul_zero] at hd
      omega
    · rw [Nat.mul_comm]
      omega
  · rw [if_neg h]
    omega

/-- The compression factor is `max 1 ⌈n / m⌉`. -/
theorem compression_factor_eq (n m : ℕ) (hm : 0 < m) :
    compression_factor n m = max 1 ((n + m - 1) / m) := by
  have hd := Nat.div_add_mod (n + m - 1) m
  have hr := Nat.mod_lt (n + m - 1) hm
  unfold compression_factor
  by_cases h : n > m
  · rw [if_pos h]
    show (if (n + m - 1) / m = 0 then 1 else (n + m - 1) / m) = _
    have h2 : 2 ≤ (n + m - 1) / m := by
      rw [Nat.le_div_iff_mul_le hm]
      omega
    split_ifs <;> omega
  · rw [if_neg h]
    push_neg at h
    have h1 : (n + m - 1) / m ≤ 1 := by
      by_contra hc
      push_neg at hc
      rw [Nat.lt_iff_add_one_le, Nat.le_div_iff_mul_le hm] at hc
      omega
    omega

/-- `pyRound` is monotone. -/
theorem pyRound_mono {q r : ℚ} (h : q ≤ r) : pyRound q ≤ pyRound r := by
  rw [pyRound_eq, pyRound_eq]
  have hfl : ⌊q⌋ ≤ ⌊r⌋ := Int.floor_le_floor h
  rcases lt_or_eq_of_le hfl with hlt | heq
  · have h1 : pyRound q ≤ ⌊q⌋ + 1 := by rw [pyRound_eq]; split_ifs <;> omega
    have h2 : ⌊r⌋ ≤ pyRound r := by rw [pyRound_eq]; split_ifs <;> omega
    rw [pyRound_eq] at h1 h2
    omega
  · rw [← heq]
    have hfr : q - (⌊q⌋ : ℚ) ≤ r - (⌊q⌋ : ℚ) := by linarith
    split_ifs <;> first | omega | linarith

/-- `pyRound` of a non-negative number is non-negative. -/
theorem pyRound_nonneg {q : ℚ} (h : 0 ≤ q) : 0 ≤ pyRound q := by
  rw [pyRound_eq]
  have : 0 ≤ ⌊q⌋ := Int.floor_nonneg.mpr h
  split_ifs <;> omega

/-- `round` of a natural number is itself. -/
theorem pyRound_natCast (n : ℕ) : pyRound ((n : ℚ)) = n := by
  have : ((n : ℚ)) = (((n : ℤ) : ℚ)) := by push_cast; rfl
  rw [this, pyRound_intCast]

/-- Last boundary of a fold (`lastVal s bs` is the last element of
`s :: bs`). -/
def lastVal (s : ℤ) (bs : List ℤ) : ℤ := bs.foldl (fun _ b => b) s

theorem lastVal_cons (s b : ℤ) (bs : List ℤ) :
    lastVal s (b :: bs) = lastVal b bs := rfl

theorem chain_le_lastVal : ∀ (bs : List ℤ) (s : ℤ),
    List.Chain (· ≤ ·) s bs → s ≤ lastVal s bs := by
  intro bs
  induction bs with
  | nil => intro s _; exact le_refl s
  | cons b bs ih =>
    intro s h
    rw [List.chain_cons] at h
    rw [lastVal_cons]
    exact le_trans h.1 (ih b h.2)

/-- Joining the slices between chained boundaries gives one slice from the
start to the last boundary. -/
theorem slices_go_join (raw : List ℚ) : ∀ (bs : List ℤ) (s : ℤ),
    List.Chain (· ≤ ·) s bs →
    (slices_go raw s bs).flatten =
      (raw.drop s.toNat).take ((lastVal s bs).toNat - s.toNat) := by
  intro bs
  induction bs with
  | nil => intro s _; simp [slices_go, lastVal]
  | cons b bs ih =>
    intro s h
    rw [List.chain_cons] at h
    have hAB : s.toNat ≤ b.toNat := Int.toNat_le_toNat h.1
    have hBL : b.toNat ≤ (lastVal b bs).toNat :=
      Int.toNat_le_toNat (chain_le_lastVal bs b h.2)
    simp only [slices_go, List.flatten_cons, lastVal_cons]
    rw [ih b h.2]
    have hdrop : (raw.drop s.toNat).drop (b.toNat - s.toNat) = raw.drop b.toNat := by
      rw [List.drop_drop]
      congr 1
      omega
    calc (raw.drop s.toNat).take (b.toNat - s.toNat) ++
          (raw.drop b.toNat).take ((lastVal b bs).toNat - b.toNat)
        = (raw.drop s.toNat).take (b.toNat - s.toNat) ++
          ((raw.drop s.toNat).drop (b.toNat - s.toNat)).take
            ((lastVal b bs).toNat - b.toNat) := by rw [hdrop]
      _ = (raw.drop s.toNat).take
            ((b.toNat - s.toNat) + ((lastVal b bs).toNat - b.toNat)) := by
          rw [List.take_add]
      _ = (raw.drop s.toNat).take ((lastVal b bs).toNat - s.toNat) := by
          congr 1
          omega

/-- A monotone sequence mapped over `range'` is a chain above any lower
bound of its first element. -/
theorem chain_map_range' (g : ℕ → ℤ) (hg : ∀ i, g i ≤ g (i+1)) :
    ∀ (n a : ℕ) (s : ℤ), (n = 0 ∨ s ≤ g a) →
      List.Chain (· ≤ ·) s ((List.range' a n).map g) := by
  intro n
  induction n with
  | zero => intro a s _; exact List.Chain.nil
  | succ n ih =>
    intro a s hs
    rcases hs with h0 | hs
    · omega
    · simp only [List.range', List.map]
      rw [List.chain_cons]
      exact ⟨hs, ih (a+1) (g a) (Or.inr (hg a))⟩

/-- Last element of a monotone map over `range'`. -/
theorem lastVal_map_range' (g : ℕ → ℤ) :
    ∀ (n a : ℕ) (s : ℤ), 0 < n →
      lastVal s ((List.range' a n).map g) = g (a + n - 1) := by
  intro n
  induction n with
  | zero => omega
  | succ n ih =>
    intro a s _
    simp only [List.range', List.map, lastVal_cons]
    cases n with
    | zero => simp [lastVal]
    | succ n2 =>
      rw [ih (a+1) (g a) (Nat.succ_pos n2)]
      congr 1
      omega

/-- Slicing at increasing boundaries that end at the list's length and
joining restores the list. -/
theorem slices_range_join (raw : List ℚ) (g : ℕ → ℤ) (n : ℕ) (hn : 0 < n)
    (hmono : ∀ i, g i ≤ g (i+1)) (h0 : 0 ≤ g 0)
    (hlast : g (n-1) = (raw.length : ℤ)) :
    (slices_go raw 0 ((List.range n).map g)).flatten = raw := by
  rw [List.range_eq_range']
  rw [slices_go_join raw _ 0 (chain_map_range' g hmono n 0 0 (Or.inr h0))]
  rw [lastVal_map_range' g n 0 0 hn]
  rw [Nat.zero_add, hlast]
  simp

/-- Precise mode reassembles the raw sequence: the boundaries are
monotone, non-negative and end at the sample count. -/
theorem precise_join (raw : List ℚ) (w : ℕ) (hw : 0 < w) :
    (group_values_for_precisely raw w).1.flatten = raw := by
  simp only [group_values_for_precisely]
  apply slices_range_join raw _ (w*2) (by omega)
  · intro i
    apply pyRound_mono
    rw [div_le_div_iff_of_pos_right (by positivity : (0:ℚ) < (w:ℚ) * 2)]
    have : ((i:ℚ)) + 1 ≤ ((i+1 : ℕ) : ℚ) + 1 := by push_cast; linarith
    exact mul_le_mul_of_nonneg_right this (by positivity)
  · exact pyRound_nonneg (by positivity)
  · have h2 : 1 ≤ w * 2 := by omega
    have h1 : (((w*2 - 1 : ℕ) : ℚ) + 1) = (w:ℚ) * 2 := by
      push_cast [h2]
      ring
    rw [h1, mul_comm, mul_div_assoc, div_self (by positivity : ((w:ℚ)*2) ≠ 0),
      mul_one, pyRound_natCast]

/-- C2: for every non-empty sample sequence the compressor in each of its
three modes produces at most `2·availableColumns` units; the concatenation
of all units' contributing samples is the original sequence in order; in
mean mode each unit is the arithmetic mean of its group of size
`compressionFactor = max(1, ceil(n / (2·availableColumns)))` (mean mode's
groups being exactly multi mode's groups). -/
theorem C2_theorem (values : List ℚ) (cols : ℕ) (hne : values ≠ [])
    (hc : 0 < cols) :
    compression_factor values.length (2 * cols) =
      max 1 ((values.length + 2 * cols - 1) / (2 * cols)) ∧
    (average_values_in_groups values
      (compression_factor values.length (2 * cols))).1.length ≤ 2 * cols ∧
    (group_values_for_multi values
      (compression_factor values.length (2 * cols))).1.length ≤ 2 * cols ∧
    (group_values_for_precisely values cols).1.length ≤ 2 * cols ∧
    (group_values_for_multi values
      (compression_factor values.length (2 * cols))).1.flatten = values ∧
    (group_values_for_precisely values cols).1.flatten = values ∧
    (average_values_in_groups values
      (compression_factor values.length (2 * cols))).1 =
      ((group_values_for_multi values
        (compression_factor values.length (2 * cols))).1).map
        (fun g => g.sum / (g.length : ℚ)) := by
  have hm : 0 < 2 * cols := by omega
  have hcov := compression_factor_covers values.length (2 * cols) hm
  have hpos : 0 < compression_factor values.length (2 * cols) := by
    rw [compression_factor_eq values.length (2 * cols) hm]
    exact Nat.lt_of_lt_of_le Nat.zero_lt_one (le_max_left 1 _)
  obtain ⟨k, hk⟩ : ∃ k, compression_factor values.length (2 * cols) = k + 1 :=
    ⟨compression_factor values.length (2 * cols) - 1, by omega⟩
  have hlen : (group_values_for_multi values (k+1)).1.length ≤ 2 * cols := by
    simp only [group_values_for_multi]
    exact multi_groups_len k (2 * cols) values.length values 0 (le_refl _)
      (by rw [hk] at hcov; omega)
  refine ⟨compression_factor_eq values.length (2 * cols) hm, ?_, ?_, ?_, ?_, ?_, ?_⟩
  · rw [hk]
    simp only [average_values_in_groups, group_values_for_multi] at hlen ⊢
    rw [avg_groups_eq_map, List.length_map]
    exact hlen
  · rw [hk]
    exact hlen
  · have := (C3_theorem.1 values cols).1
    omega
  · rw [hk]
    simp only [group_values_for_multi]
    exact multi_groups_join k values.length values 0 (le_refl _)
  · exact precise_join values cols hc
  · rw [hk]
    simp only [average_values_in_groups, group_values_for_multi]
    exact avg_groups_eq_map k values.length values 0

/-- C2 witness: three samples into one column. -/
theorem C2_witness :
    ([1, 2, 3] : List ℚ) ≠ [] ∧ 0 < 1 ∧
    (group_values_for_multi [1, 2, 3]
      (compression_factor ([1, 2, 3] : List ℚ).length (2 * 1))).1.flatten
      = [1, 2, 3] :=
  ⟨by simp, by omega,
   (C2_theorem [1, 2, 3] 1 (by simp) (by omega)).2.2.2.2.1⟩

theorem TUpd_apply {α : Type} (f : TKey → α) (k j : TKey) (v : α) :
    TUpd f k v j = if j = k then v else f j := rfl

/-- The cascade never writes into an inactive unit. -/
theorem cascadeGo_inactive (iF : TKey → Bool) (cur old : List Char) (c : ℕ)
    (k : TKey) (hk : iF k = false) :
    ∀ (parts : List (ℕ × ℕ × TKey)) (toend : Bool) (xs : TKey → List ℕ)
      (vs : TKey → List (List Char)),
      (cascadeGo iF cur old c parts toend xs vs).1 k = xs k ∧
      (cascadeGo iF cur old c parts toend xs vs).2 k = vs k := by
  intro parts
  induction parts with
  | nil => intro toend xs vs; exact ⟨rfl, rfl⟩
  | cons p ps ih =>
    intro toend xs vs
    obtain ⟨s1, s2, l⟩ := p
    by_cases hkl : k = l
    · subst hkl
      simp only [cascadeGo, hk]
      split_ifs <;> simp_all <;> exact ih _ _ _
    · simp only [cascadeGo]
      split_ifs <;>
        first
        | exact ih _ _ _
        | (constructor
           · rw [(ih _ _ _).1, TUpd_apply, if_neg hkl]
           · rw [(ih _ _ _).2, TUpd_apply, if_neg hkl])

/-- The cascade leaves keys outside the parts list untouched. -/
theorem cascadeGo_notmem (iF : TKey → Bool) (cur old : List Char) (c : ℕ)
    (k : TKey) :
    ∀ (parts : List (ℕ × ℕ × TKey)), k ∉ parts.map (fun pr => pr.2.2) →
    ∀ (toend : Bool) (xs : TKey → List ℕ) (vs : TKey → List (List Char)),
      (cascadeGo iF cur old c parts toend xs vs).1 k = xs k ∧
      (cascadeGo iF cur old c parts toend xs vs).2 k = vs k := by
  intro parts
  induction parts with
  | nil => intro _ toend xs vs; exact ⟨rfl, rfl⟩
  | cons p ps ih =>
    intro hmem toend xs vs
    obtain ⟨s1, s2, l⟩ := p
    simp only [List.map, List.mem_cons] at hmem
    push_neg at hmem
    have hkl : k ≠ l := hmem.1
    have hps : k ∉ ps.map (fun pr => pr.2.2) := hmem.2
    simp only [cascadeGo]
    split_ifs <;>
      first
      | exact ih hps _ _ _
      | (constructor
         · rw [(ih hps _ _ _).1, TUpd_apply, if_neg hkl]
         · rw [(ih hps _ _ _).2, TUpd_apply, if_neg hkl])

/-- One cascade appends at most one record per unit (the keys of the
parts lists are distinct). -/
theorem cascadeGo_len (iF : TKey → Bool) (cur old : List Char) (c : ℕ)
    (k : TKey) :
    ∀ (parts : List (ℕ × ℕ × TKey)), (parts.map (fun pr => pr.2.2)).Nodup →
    ∀ (toend : Bool) (xs : TKey → List ℕ) (vs : TKey → List (List Char)),
      ((cascadeGo iF cur old c parts toend xs vs).1 k).length ≤
        (xs k).length + 1 := by
  intro parts
  induction parts with
  | nil =>
    intro _ toend xs vs
    simp only [cascadeGo]
    omega
  | cons p ps ih =>
    intro hnd toend xs vs
    obtain ⟨s1, s2, l⟩ := p
    simp only [List.map, List.nodup_cons] at hnd
    by_cases hkl : k = l
    · subst hkl
      simp only [cascadeGo]
      split_ifs <;>
        first
        | (rw [(cascadeGo_notmem iF cur old c k ps hnd.1 _ _ _).1, TUpd_apply,
            if_pos rfl]
           simp)
        | (rw [(cascadeGo_notmem iF cur old c k ps hnd.1 _ _ _).1]
           omega)
    · simp only [cascadeGo]
      split_ifs <;>
        first
        | exact ih hnd.2 _ _ _
        | (have h2 := ih hnd.2 true (TUpd xs l (xs l ++ [c]))
            (TUpd vs l (vs l ++ [pySlice cur s1 s2]))
           rw [TUpd_apply, if_neg hkl] at h2
           exact h2)
        | omega

/-- Keys not being pruned keep their entries. -/
theorem pruneGo_notmem (m : ℕ) (k : TKey) :
    ∀ (ks : List TKey), k ∉ ks →
    ∀ (iF : TKey → Bool) (xs : TKey → List ℕ) (vs : TKey → List (List Char)),
      (pruneGo m ks iF xs vs).1 k = iF k ∧
      (pruneGo m ks iF xs vs).2.1 k = xs k ∧
      (pruneGo m ks iF xs vs).2.2 k = vs k := by
  intro ks
  induction ks with
  | nil => intro _ iF xs vs; exact ⟨rfl, rfl, rfl⟩
  | cons k0 ks ih =>
    intro hmem iF xs vs
    simp only [List.mem_cons] at hmem
    push_neg at hmem
    simp only [pruneGo]
    split_ifs
    · have h := ih hmem.2 (TUpd iF k0 false) (TUpd xs k0 []) (TUpd vs k0 [])
      simp only [TUpd_apply, if_neg hmem.1] at h
      exact h
    · exact ih hmem.2 _ _ _

/-- What the prune does to one of the pruned keys. -/
theorem pruneGo_spec (m : ℕ) (k : TKey) :
    ∀ (ks : List TKey), ks.Nodup → k ∈ ks →
    ∀ (iF : TKey → Bool) (xs : TKey → List ℕ) (vs : TKey → List (List Char)),
      (if m < (xs k).length then
        (pruneGo m ks iF xs vs).1 k = false ∧
        (pruneGo m ks iF xs vs).2.1 k = [] ∧
        (pruneGo m ks iF xs vs).2.2 k = []
      else
        (pruneGo m ks iF xs vs).1 k = iF k ∧
        (pruneGo m ks iF xs vs).2.1 k = xs k ∧
        (pruneGo m ks iF xs vs).2.2 k = vs k) := by
  intro ks
  induction ks with
  | nil => intro _ h; cases h
  | cons k0 ks ih =>
    intro hnd hmem iF xs vs
    simp only [List.nodup_cons] at hnd
    by_cases hkl : k = k0
    · subst hkl
      by_cases hcond : m < (xs k).length
      · rw [if_pos hcond]
        simp only [pruneGo, if_pos hcond]
        have h := pruneGo_notmem m k ks hnd.1 (TUpd iF k false) (TUpd xs k [])
          (TUpd vs k [])
        simp only [TUpd_apply, if_pos rfl] at h
        exact h
      · rw [if_neg hcond]
        simp only [pruneGo, if_neg hcond]
        exact pruneGo_notmem m k ks hnd.1 iF xs vs
    · have hks : k ∈ ks := by
        rcases List.mem_cons.mp hmem with h | h
        · exact absurd h hkl
        · exact h
      by_cases hcond : m < (xs k0).length
      · simp only [pruneGo, if_pos hcond]
        have h := ih hnd.2 hks (TUpd iF k0 false) (TUpd xs k0 []) (TUpd vs k0 [])
        simp only [TUpd_apply, if_neg hkl] at h
        exact h
      · simp only [pruneGo, if_neg hcond]
        exact ih hnd.2 hks iF xs vs

/-- The prune never activates a unit. -/
theorem pruneGo_flag_mono (m : ℕ) (k : TKey) :
    ∀ (ks : List TKey) (iF : TKey → Bool) (xs : TKey → List ℕ)
      (vs : TKey → List (List Char)),
      (pruneGo m ks iF xs vs).1 k = true → iF k = true := by
  intro ks
  induction ks with
  | nil => intro iF xs vs h; exact h
  | cons k0 ks ih =>
    intro iF xs vs h
    simp only [pruneGo] at h
    split_ifs at h
    · have := ih _ _ _ h
      rw [TUpd_apply] at this
      split_ifs at this
      exact this
    · exact ih _ _ _ h

/-- The prune either keeps or clears a record list. -/
theorem pruneGo_x_cases (m : ℕ) (k : TKey) :
    ∀ (ks : List TKey) (iF : TKey → Bool) (xs : TKey → List ℕ)
      (vs : TKey → List (List Char)),
      (pruneGo m ks iF xs vs).2.1 k = xs k ∨
      (pruneGo m ks iF xs vs).2.1 k = [] := by
  intro ks
  induction ks with
  | nil => intro iF xs vs; exact Or.inl rfl
  | cons k0 ks ih =>
    intro iF xs vs
    simp only [pruneGo]
    split_ifs
    · rcases ih (TUpd iF k0 false) (TUpd xs k0 []) (TUpd vs k0 []) with h | h
      · rw [h, TUpd_apply]
        split_ifs
        · exact Or.inr rfl
        · exact Or.inl rfl
      · exact Or.inr h
    · exact ih _ _ _

/-- What the timestamp block leaves unchanged. -/
theorem dtRecordX_fixed (g : List (List Char)) (c : ℕ) (a : Axisx) (e : Colle) :
    (dtRecordX g c a e).1.u = a.u ∧ (dtRecordX g c a e).1.m = a.m ∧
    (dtRecordX g c a e).1.M = a.M ∧ (dtRecordX g c a e).1.i = a.i ∧
    (dtRecordX g c a e).1.e = a.e ∧
    (dtRecordX g c a e).1.d = a.d ∧ (dtRecordX g c a e).1.b = a.b ∧
    (dtRecordX g c a e).1.t = a.t ∧ (dtRecordX g c a e).1.c = a.c ∧
    (dtRecordX g c a e).2.x = e.x ∧ (dtRecordX g c a e).2.d = e.d ∧
    (dtRecordX g c a e).2.t = e.t ∧ (dtRecordX g c a e).2.s = e.s ∧
    (dtRecordX g c a e).2.e = e.e ∧ (dtRecordX g c a e).2.u = e.u ∧
    (dtRecordX g c a e).2.f = e.f ∧ (dtRecordX g c a e).2.l = e.l ∧
    (dtRecordX g c a e).2.D = e.D ∧ (dtRecordX g c a e).2.T = e.T := by
  rcases hx : e.x with _ | ix <;> simp only [dtRecordX, hx] <;>
    ((try split_ifs) <;> simp_all)

/-- What the date block leaves unchanged. -/
theorem dtRecordD_fixed (g : List (List Char)) (c : ℕ) (a : Axisx) (e : Colle) :
    (dtRecordD g c a e).1.u = a.u ∧ (dtRecordD g c a e).1.m = a.m ∧
    (dtRecordD g c a e).1.M = a.M ∧ (dtRecordD g c a e).1.i = a.i ∧
    (dtRecordD g c a e).1.e = a.e ∧
    (dtRecordD g c a e).1.x = a.x ∧ (dtRecordD g c a e).1.a = a.a ∧
    (dtRecordD g c a e).1.t = a.t ∧ (dtRecordD g c a e).1.c = a.c ∧
    (dtRecordD g c a e).2.x = e.x ∧ (dtRecordD g c a e).2.d = e.d ∧
    (dtRecordD g c a e).2.t = e.t ∧ (dtRecordD g c a e).2.s = e.s ∧
    (dtRecordD g c a e).2.e = e.e ∧ (dtRecordD g c a e).2.u = e.u ∧
    (dtRecordD g c a e).2.f = e.f ∧ (dtRecordD g c a e).2.l = e.l ∧
    (dtRecordD g c a e).2.X = e.X ∧ (dtRecordD g c a e).2.T = e.T := by
  rcases hd : e.d with _ | idd <;> simp only [dtRecordD, hd] <;>
    ((try split_ifs) <;> simp_all)

/-- What the time block leaves unchanged. -/
theorem dtRecordT_fixed (g : List (List Char)) (c : ℕ) (a : Axisx) (e : Colle) :
    (dtRecordT g c a e).1.u = a.u ∧ (dtRecordT g c a e).1.m = a.m ∧
    (dtRecordT g c a e).1.M = a.M ∧ (dtRecordT g c a e).1.i = a.i ∧
    (dtRecordT g c a e).1.e = a.e ∧
    (dtRecordT g c a e).1.x = a.x ∧ (dtRecordT g c a e).1.a = a.a ∧
    (dtRecordT g c a e).1.d = a.d ∧ (dtRecordT g c a e).1.b = a.b ∧
    (dtRecordT g c a e).2.x = e.x ∧ (dtRecordT g c a e).2.d = e.d ∧
    (dtRecordT g c a e).2.t = e.t ∧ (dtRecordT g c a e).2.s = e.s ∧
    (dtRecordT g c a e).2.e = e.e ∧ (dtRecordT g c a e).2.u = e.u ∧
    (dtRecordT g c a e).2.f = e.f ∧ (dtRecordT g c a e).2.l = e.l ∧
    (dtRecordT g c a e).2.X = e.X ∧ (dtRecordT g c a e).2.D = e.D := by
  rcases ht : e.t with _ | idt <;> simp only [dtRecordT, ht] <;>
    ((try split_ifs) <;> simp_all)

/-- The recording phase leaves the flags, widths, boundary list and all
of `colle` except the remembered prefixes unchanged. -/
theorem dtRecord_fixed (g : List (List Char)) (c : ℕ) (a : Axisx) (e : Colle) :
    (dtRecord g c a e).1.u = a.u ∧ (dtRecord g c a e).1.m = a.m ∧
    (dtRecord g c a e).1.M = a.M ∧ (dtRecord g c a e).1.i = a.i ∧
    (dtRecord g c a e).1.e = a.e ∧
    (dtRecord g c a e).2.x = e.x ∧ (dtRecord g c a e).2.d = e.d ∧
    (dtRecord g c a e).2.t = e.t ∧ (dtRecord g c a e).2.s = e.s ∧
    (dtRecord g c a e).2.e = e.e ∧ (dtRecord g c a e).2.u = e.u ∧
    (dtRecord g c a e).2.f = e.f ∧ (dtRecord g c a e).2.l = e.l := by
  rcases hx : e.x with _ | ix <;> simp only [dtRecord, hx]
  · have hD := dtRecordD_fixed g c a e
    rw [hx] at hD
    obtain ⟨d1, d2, d3, d4, d5, d6, d7, d8, d9, d10, d11, d12, d13, d14, d15,
      d16, d17, d18, d19⟩ := hD
    obtain ⟨t1, t2, t3, t4, t5, t6, t7, t8, t9, t10, t11, t12, t13, t14, t15,
      t16, t17, t18, t19⟩ :=
      dtRecordT_fixed g c (dtRecordD g c a e).1 (dtRecordD g c a e).2
    exact ⟨t1.trans d1, t2.trans d2, t3.trans d3, t4.trans d4, t5.trans d5,
      t10.trans d10, t11.trans d11, t12.trans d12, t13.trans d13,
      t14.trans d14, t15.trans d15, t16.trans d16, t17.trans d17⟩
  · have hX := dtRecordX_fixed g c a e
    rw [hx] at hX
    obtain ⟨x1, x2, x3, x4, x5, x6, x7, x8, x9, x10, x11, x12, x13, x14, x15,
      x16, x17, x18, x19⟩ := hX
    exact ⟨x1, x2, x3, x4, x5, x10, x11, x12, x13, x14, x15, x16, x17⟩

theorem dtRecordX_none (g : List (List Char)) (c : ℕ) (a : Axisx) (e : Colle)
    (hx : e.x = none) : dtRecordX g c a e = (a, e) := by
  simp [dtRecordX, hx]

theorem dtRecordD_none (g : List (List Char)) (c : ℕ) (a : Axisx) (e : Colle)
    (hd : e.d = none) : dtRecordD g c a e = (a, e) := by
  simp [dtRecordD, hd]

theorem dtRecordT_none (g : List (List Char)) (c : ℕ) (a : Axisx) (e : Colle)
    (ht : e.t = none) : dtRecordT g c a e = (a, e) := by
  simp [dtRecordT, ht]

theorem dtRecordX_growth (g : List (List Char)) (c : ℕ) (a : Axisx)
    (e : Colle) (k : TKey) :
    ((dtRecordX g c a e).1.x k).length ≤ (a.x k).length + 1 := by
  have hiso : (ISO_PARTS.map (fun pr => pr.2.2)).Nodup := by decide
  rcases hx : e.x with _ | ix <;> simp only [dtRecordX, hx] <;>
    ((try split_ifs) <;> simp_all) <;>
    exact cascadeGo_len _ _ _ _ _ _ hiso _ _ _

theorem dtRecordD_growth (g : List (List Char)) (c : ℕ) (a : Axisx)
    (e : Colle) (k : TKey) :
    ((dtRecordD g c a e).1.d k).length ≤ (a.d k).length + 1 := by
  have hdp : (DATE_PARTS.map (fun pr => pr.2.2)).Nodup := by decide
  rcases hd : e.d with _ | idd <;> simp only [dtRecordD, hd] <;>
    ((try split_ifs) <;> simp_all) <;>
    exact cascadeGo_len _ _ _ _ _ _ hdp _ _ _

theorem dtRecordT_growth (g : List (List Char)) (c : ℕ) (a : Axisx)
    (e : Colle) (k : TKey) :
    ((dtRecordT g c a e).1.t k).length ≤ (a.t k).length + 1 := by
  have htp : (TIME_PARTS.map (fun pr => pr.2.2)).Nodup := by decide
  rcases ht : e.t with _ | idt <;> simp only [dtRecordT, ht] <;>
    ((try split_ifs) <;> simp_all) <;>
    exact cascadeGo_len _ _ _ _ _ _ htp _ _ _

theorem dtRecordX_inactive (g : List (List Char)) (c : ℕ) (a : Axisx)
    (e : Colle) (k : TKey) (hk : a.i k = false) :
    (dtRecordX g c a e).1.x k = a.x k := by
  rcases hx : e.x with _ | ix <;> simp only [dtRecordX, hx] <;>
    ((try split_ifs) <;> simp_all [(cascadeGo_inactive _ _ _ _ k hk _ _ _ _).1])

theorem dtRecordD_inactive (g : List (List Char)) (c : ℕ) (a : Axisx)
    (e : Colle) (k : TKey) (hk : a.i k = false) :
    (dtRecordD g c a e).1.d k = a.d k := by
  rcases hd : e.d with _ | idd <;> simp only [dtRecordD, hd] <;>
    ((try split_ifs) <;> simp_all [(cascadeGo_inactive _ _ _ _ k hk _ _ _ _).1])

theorem dtRecordT_inactive (g : List (List Char)) (c : ℕ) (a : Axisx)
    (e : Colle) (k : TKey) (hk : a.i k = false) :
    (dtRecordT g c a e).1.t k = a.t k := by
  rcases ht : e.t with _ | idt <;> simp only [dtRecordT, ht] <;>
    ((try split_ifs) <;> simp_all [(cascadeGo_inactive _ _ _ _ k hk _ _ _ _).1])

/-- The recording phase appends at most one record per unit. -/
theorem dtRecord_growth (g : List (List Char)) (c : ℕ) (a : Axisx) (e : Colle)
    (k : TKey) :
    ((dtRecord g c a e).1.x k).length ≤ (a.x k).length + 1 ∧
    ((dtRecord g c a e).1.d k).length ≤ (a.d k).length + 1 ∧
    ((dtRecord g c a e).1.t k).length ≤ (a.t k).length + 1 := by
  rcases hx : e.x with _ | ix <;> simp only [dtRecord, hx]
  · have hD := dtRecordD_fixed g c a e
    have hT := dtRecordT_fixed g c (dtRecordD g c a e).1 (dtRecordD g c a e).2
    refine ⟨?_, ?_, ?_⟩
    · rw [congrFun hT.2.2.2.2.2.1 k, congrFun hD.2.2.2.2.2.1 k]
      omega
    · rw [congrFun hT.2.2.2.2.2.2.2.1 k]
      exact dtRecordD_growth g c a e k
    · calc ((dtRecordT g c (dtRecordD g c a e).1 (dtRecordD g c a e).2).1.t k).length
          ≤ ((dtRecordD g c a e).1.t k).length + 1 := dtRecordT_growth g c _ _ k
        _ = (a.t k).length + 1 := by rw [congrFun hD.2.2.2.2.2.2.2.1 k]
  · have hX := dtRecordX_fixed g c a e
    refine ⟨dtRecordX_growth g c a e k, ?_, ?_⟩
    · rw [congrFun hX.2.2.2.2.2.1 k]
      omega
    · rw [congrFun hX.2.2.2.2.2.2.2.1 k]
      omega

/-- The recording phase never writes into an inactive unit. -/
theorem dtRecord_inactive (g : List (List Char)) (c : ℕ) (a : Axisx)
    (e : Colle) (k : TKey) (hk : a.i k = false) :
    (dtRecord g c a e).1.x k = a.x k ∧ (dtRecord g c a e).1.d k = a.d k ∧
    (dtRecord g c a e).1.t k = a.t k := by
  rcases hx : e.x with _ | ix <;> simp only [dtRecord, hx]
  · have hD := dtRecordD_fixed g c a e
    have hT := dtRecordT_fixed g c (dtRecordD g c a e).1 (dtRecordD g c a e).2
    have hDi : (dtRecordD g c a e).1.i k = false := by
      rw [congrFun hD.2.2.2.1 k]
      exact hk
    refine ⟨?_, ?_, ?_⟩
    · rw [congrFun hT.2.2.2.2.2.1 k, congrFun hD.2.2.2.2.2.1 k]
    · rw [congrFun hT.2.2.2.2.2.2.2.1 k]
      exact dtRecordD_inactive g c a e k hk
    · rw [dtRecordT_inactive g c _ _ k hDi, congrFun hD.2.2.2.2.2.2.2.1 k]
  · have hX := dtRecordX_fixed g c a e
    refine ⟨dtRecordX_inactive g c a e k hk, ?_, ?_⟩
    · rw [congrFun hX.2.2.2.2.2.1 k]
    · rw [congrFun hX.2.2.2.2.2.2.2.1 k]

/-- The summation tail passes `axisx` and `colle` through unchanged. -/
theorem dtSum_state (CSUM : Option TKey) (g : List (List Char)) (a : Axisx)
    (v : ℚ) (e : Colle) (p : Grups) (r : Axisx × Colle × Grups)
    (h : dtSum CSUM g a v e p = some r) : r.1 = a ∧ r.2.1 = e := by
  unfold dtSum at h
  split at h
  · exact absurd h (by simp)
  · rw [← Option.some.inj h]
    exact ⟨rfl, rfl⟩

/-- Without a summation key the tail is the identity. -/
theorem dtSum_none (g : List (List Char)) (a : Axisx) (v : ℚ) (e : Colle)
    (p : Grups) : dtSum none g a v e p = some (a, e, p) := rfl

/-- The prune block keeps the usable flag, widths and boundary list. -/
theorem dtPrune_fixed (a : Axisx) (e : Colle) :
    (dtPrune a e).u = a.u ∧ (dtPrune a e).m = a.m ∧ (dtPrune a e).M = a.M ∧
    (dtPrune a e).e = a.e := by
  rcases hx : e.x with _ | ix <;> rcases hd : e.d with _ | idd <;>
    rcases ht : e.t with _ | idt <;> simp [dtPrune, hx, hd, ht]

/-- The prune block never activates a unit. -/
theorem dtPrune_flag_mono (a : Axisx) (e : Colle) (k : TKey)
    (h : (dtPrune a e).i k = true) : a.i k = true := by
  rcases hx : e.x with _ | ix <;> rcases hd : e.d with _ | idd <;>
    rcases ht : e.t with _ | idt <;> simp only [dtPrune, hx, hd, ht] at h <;>
    first
      | exact h
      | exact pruneGo_flag_mono _ _ _ _ _ _ h
      | exact pruneGo_flag_mono _ _ _ _ _ _ (pruneGo_flag_mono _ _ _ _ _ _ h)

/-- The strict-format check only moves the error counter, upward. -/
theorem dtCheckE_fixed (g : List (List Char)) (e : Colle) :
    (dtCheckE g e).x = e.x ∧ (dtCheckE g e).d = e.d ∧
    (dtCheckE g e).t = e.t ∧ (dtCheckE g e).s = e.s ∧
    (dtCheckE g e).u = e.u ∧ (dtCheckE g e).f = e.f ∧
    (dtCheckE g e).l = e.l ∧ e.e ≤ (dtCheckE g e).e := by
  rcases hx : e.x with _ | ix <;> rcases hd : e.d with _ | idd <;>
    rcases ht : e.t with _ | idt <;> simp only [dtCheckE, hx, hd, ht] <;>
    ((try split_ifs) <;> (try simp_all) <;> (try split_ifs) <;>
     (try simp_all) <;> (try omega))

/-- The 100th-sample reset keeps the flags, widths and boundary list. -/
theorem dtReset_fixed (a : Axisx) (e : Colle) :
    (dtReset a e).u = a.u ∧ (dtReset a e).m = a.m ∧ (dtReset a e).M = a.M ∧
    (dtReset a e).i = a.i ∧ (dtReset a e).e = a.e := by
  rcases hx : e.x with _ | ix <;> rcases hd : e.d with _ | idd <;>
    rcases ht : e.t with _ | idt <;> simp only [dtReset, hx, hd, ht] <;>
    ((try split_ifs) <;> simp_all)

/-- A successful tracker call leaves the detected columns and the found
flag of `colle` alone. -/
theorem date_time_colle (CSUM : Option TKey) (g : List (List Char)) (c : ℕ)
    (a : Axisx) (v : ℚ) (e : Colle) (p : Grups) (r : Axisx × Colle × Grups)
    (h : date_time CSUM g c a v e p = some r) :
    r.2.1.x = e.x ∧ r.2.1.d = e.d ∧ r.2.1.t = e.t ∧ r.2.1.s = e.s := by
  have hrec := dtRecord_fixed g c a e
  have hchk := dtCheckE_fixed g (dtRecord g c a e).2
  simp only [date_time] at h
  split_ifs at h
  · have hr : r.2.1 = {dtCheckE g (dtRecord g c a e).2 with u := false} := by
      rw [← Option.some.inj h]
    rw [hr]
    exact ⟨hchk.1.trans hrec.2.2.2.2.2.1,
      hchk.2.1.trans hrec.2.2.2.2.2.2.1,
      hchk.2.2.1.trans hrec.2.2.2.2.2.2.2.1,
      hchk.2.2.2.1.trans hrec.2.2.2.2.2.2.2.2.1⟩
  · have hr := (dtSum_state _ _ _ _ _ _ _ h).2
    rw [hr]
    exact ⟨hchk.1.trans hrec.2.2.2.2.2.1,
      hchk.2.1.trans hrec.2.2.2.2.2.2.1,
      hchk.2.2.1.trans hrec.2.2.2.2.2.2.2.1,
      hchk.2.2.2.1.trans hrec.2.2.2.2.2.2.2.2.1⟩
  · have hr := (dtSum_state _ _ _ _ _ _ _ h).2
    rw [hr]
    exact ⟨hchk.1.trans hrec.2.2.2.2.2.1,
      hchk.2.1.trans hrec.2.2.2.2.2.2.1,
      hchk.2.2.1.trans hrec.2.2.2.2.2.2.2.1,
      hchk.2.2.2.1.trans hrec.2.2.2.2.2.2.2.2.1⟩
  · have hr := (dtSum_state _ _ _ _ _ _ _ h).2
    rw [hr]
    exact ⟨hrec.2.2.2.2.2.1, hrec.2.2.2.2.2.2.1,
      hrec.2.2.2.2.2.2.2.1, hrec.2.2.2.2.2.2.2.2.1⟩

/-- A successful tracker call never activates a unit. -/
theorem date_time_flag_mono (CSUM : Option TKey) (g : List (List Char))
    (c : ℕ) (a : Axisx) (v : ℚ) (e : Colle) (p : Grups)
    (r : Axisx × Colle × Grups) (k : TKey)
    (h : date_time CSUM g c a v e p = some r) (hk : r.1.i k = true) :
    a.i k = true := by
  have hrec := dtRecord_fixed g c a e
  simp only [date_time] at h
  split_ifs at h
  · have hr : r.1 = dtPrune (dtRecord g c a e).1 (dtRecord g c a e).2 := by
      rw [← Option.some.inj h]
    rw [hr] at hk
    have := dtPrune_flag_mono _ _ k hk
    rw [congrFun hrec.2.2.2.1 k] at this
    exact this
  · have hr := (dtSum_state _ _ _ _ _ _ _ h).1
    rw [hr, congrFun (dtReset_fixed (dtPrune (dtRecord g c a e).1
      (dtRecord g c a e).2) (dtCheckE g (dtRecord g c a e).2)).2.2.2.1 k]
      at hk
    have := dtPrune_flag_mono _ _ k hk
    rw [congrFun hrec.2.2.2.1 k] at this
    exact this
  · have hr := (dtSum_state _ _ _ _ _ _ _ h).1
    rw [hr] at hk
    have := dtPrune_flag_mono _ _ k hk
    rw [congrFun hrec.2.2.2.1 k] at this
    exact this
  · have hr := (dtSum_state _ _ _ _ _ _ _ h).1
    rw [hr] at hk
    rw [congrFun hrec.2.2.2.1 k] at hk
    exact hk

/-- C4 counterexample: two rows whose only common date-valid index is 0.
The spec's detector (candidate sets intersected over all rows seen so
far) adopts column 0 as the date field on the second row; the code's
detector, which looks at the current row only, adopts nothing and leaves
every column unset and the found flag clear. -/
theorem C4_counterexample :
    (processRows none (mstate0 80)
      [(twoDatesRow1, 7), (twoDatesRow2, 7)]).isSome = true ∧
    ((processRows none (mstate0 80)
      [(twoDatesRow1, 7), (twoDatesRow2, 7)]).getD (mstate0 80)).colle.x
        = none ∧
    ((processRows none (mstate0 80)
      [(twoDatesRow1, 7), (twoDatesRow2, 7)]).getD (mstate0 80)).colle.d
        = none ∧
    ((processRows none (mstate0 80)
      [(twoDatesRow1, 7), (twoDatesRow2, 7)]).getD (mstate0 80)).colle.t
        = none ∧
    ((processRows none (mstate0 80)
      [(twoDatesRow1, 7), (twoDatesRow2, 7)]).getD (mstate0 80)).colle.s
        = false ∧
    (specDetectRun [twoDatesRow1, twoDatesRow2]).d = some 0 := by
  decide

/-- C4 (amended): the detector uses only the current row.  On the 11th
accepted row (`c = 10` attempts before this one) it permanently disables
time-awareness; otherwise it adopts the timestamp column exactly when the
current row has a unique timestamp-valid index, and, failing that, the
date and/or time columns exactly when the current row has a unique valid
index of that category; any adoption sets the found flag, and once the
found flag is set the driver skips the detector entirely, so no category
is ever re-derived on later rows. -/
theorem C4_theorem (CSUM : Option TKey) (c : ℕ) (e : Colle) (a : Axisx)
    (g : List (List Char)) (p : Grups) (cl : ℕ) (st st2 : MState)
    (f : List (List Char)) (v : ℚ) :
    (c = 10 → date_time_search CSUM c e a g p cl =
      ({e with u := false}, a, p)) ∧
    (c ≠ 10 →
      (date_time_search CSUM c e a g p cl).1.x =
        (if (rowCands g .ts 19).length = 1
         then some ((rowCands g .ts 19).getD 0 0) else e.x) ∧
      (date_time_search CSUM c e a g p cl).1.d =
        (if (rowCands g .ts 19).length ≠ 1 ∧ (rowCands g .dt 10).length = 1
         then some ((rowCands g .dt 10).getD 0 0) else e.d) ∧
      (date_time_search CSUM c e a g p cl).1.t =
        (if (rowCands g .ts 19).length ≠ 1 ∧ (rowCands g .ti 8).length = 1
         then some ((rowCands g .ti 8).getD 0 0) else e.t) ∧
      ((date_time_search CSUM c e a g p cl).1.s = true ↔
        (e.s = true ∨ (rowCands g .ts 19).length = 1 ∨
         (rowCands g .dt 10).length = 1 ∨ (rowCands g .ti 8).length = 1))) ∧
    (st.colle.s = true → processRow CSUM st f v = some st2 →
      st2.colle.x = st.colle.x ∧ st2.colle.d = st.colle.d ∧
      st2.colle.t = st.colle.t ∧ st2.colle.s = true) := by
  refine ⟨?_, ?_, ?_⟩
  · intro hc
    subst hc
    simp [date_time_search]
  · intro hc
    by_cases hx1 : (rowCands g .ts 19).length = 1 <;>
      by_cases hd1 : (rowCands g .dt 10).length = 1 <;>
      by_cases ht1 : (rowCands g .ti 8).length = 1 <;>
      simp only [rowCands] at hx1 hd1 ht1 ⊢ <;>
      simp only [date_time_search, if_neg hc] <;>
      simp_all <;> tauto
  · intro hs hrun
    simp only [processRow, hs, Bool.not_true, Bool.false_and,
      Bool.false_eq_true, if_false] at hrun
    by_cases hu : st.colle.u = true
    · rw [if_pos hu] at hrun
      rcases heq : date_time CSUM f (st.cv + 1) st.axisx v st.colle st.grups
        with _ | r
      · rw [heq] at hrun
        exact absurd hrun (by simp)
      · rw [heq] at hrun
        have hst2 := Option.some.inj hrun
        have hcol := date_time_colle CSUM f (st.cv + 1) st.axisx v st.colle
          st.grups r heq
        rw [← hst2]
        exact ⟨hcol.1, hcol.2.1, hcol.2.2.1, hcol.2.2.2.trans hs⟩
    · rw [if_neg hu] at hrun
      have hst2 := Option.some.inj hrun
      rw [← hst2]
      exact ⟨rfl, rfl, rfl, hs⟩

/-- C4 witness: the 11th-row disable and the current-row date adoption
rule, instantiated on the two-date row. -/
theorem C4_witness :
    date_time_search none 10 colle0 (axisx0 80) twoDatesRow1 grups0 11 =
      ({colle0 with u := false}, axisx0 80, grups0) ∧
    (date_time_search none 1 colle0 (axisx0 80) twoDatesRow1 grups0 2).1.d =
      (if (rowCands twoDatesRow1 .ts 19).length ≠ 1 ∧
          (rowCands twoDatesRow1 .dt 10).length = 1
       then some ((rowCands twoDatesRow1 .dt 10).getD 0 0) else colle0.d) :=
  ⟨(C4_theorem none 10 colle0 (axisx0 80) twoDatesRow1 grups0 11
      (mstate0 80) (mstate0 80) [] 0).1 rfl,
   ((C4_theorem none 1 colle0 (axisx0 80) twoDatesRow1 grups0 2
      (mstate0 80) (mstate0 80) [] 0).2.1 (by decide)).2.1⟩

/-- The prune keeps or clears each timestamp record list. -/
theorem dtPrune_x_cases (a : Axisx) (e : Colle) (k : TKey) :
    (dtPrune a e).x k = a.x k ∨ (dtPrune a e).x k = [] := by
  rcases hx : e.x with _ | ix <;> rcases hd : e.d with _ | idd <;>
    rcases ht : e.t with _ | idt <;> simp only [dtPrune, hx, hd, ht] <;>
    first
      | exact Or.inl trivial
      | exact Or.inl rfl
      | exact pruneGo_x_cases _ _ _ _ _ _

/-- The prune keeps or clears each date record list. -/
theorem dtPrune_d_cases (a : Axisx) (e : Colle) (k : TKey) :
    (dtPrune a e).d k = a.d k ∨ (dtPrune a e).d k = [] := by
  rcases hx : e.x with _ | ix <;> rcases hd : e.d with _ | idd <;>
    rcases ht : e.t with _ | idt <;> simp only [dtPrune, hx, hd, ht] <;>
    first
      | exact Or.inl trivial
      | exact Or.inl rfl
      | exact pruneGo_x_cases _ _ _ _ _ _

/-- The prune keeps or clears each time record list. -/
theorem dtPrune_t_cases (a : Axisx) (e : Colle) (k : TKey) :
    (dtPrune a e).t k = a.t k ∨ (dtPrune a e).t k = [] := by
  rcases hx : e.x with _ | ix <;> rcases hd : e.d with _ | idd <;>
    rcases ht : e.t with _ | idt <;> simp only [dtPrune, hx, hd, ht] <;>
    first
      | exact Or.inl trivial
      | exact Or.inl rfl
      | exact pruneGo_x_cases _ _ _ _ _ _

/-- With a timestamp column, a unit still active after the prune has at
most `a['m']` records. -/
theorem dtPrune_x_cap (a : Axisx) (e : Colle) (k : TKey) (ix : ℕ)
    (hx : e.x = some ix) (hk : (dtPrune a e).i k = true) :
    ((dtPrune a e).x k).length ≤ a.m := by
  simp only [dtPrune, hx] at hk ⊢
  have hs := pruneGo_spec a.m k
    [TKey.y, TKey.m, TKey.d, TKey.H, TKey.M, TKey.S]
    (by decide) (by cases k <;> decide) a.i a.x a.a
  by_cases hc : a.m < (a.x k).length
  · rw [if_pos hc] at hs
    rw [hs.1] at hk
    exact absurd hk (by simp)
  · rw [if_neg hc] at hs
    rw [hs.2.1]
    omega

/-- With a timestamp column, a unit the prune deactivates has its record
and value lists cleared. -/
theorem dtPrune_x_clear (a : Axisx) (e : Colle) (k : TKey) (ix : ℕ)
    (hx : e.x = some ix) (hi : a.i k = true)
    (hk : (dtPrune a e).i k = false) :
    (dtPrune a e).x k = [] ∧ (dtPrune a e).a k = [] := by
  simp only [dtPrune, hx] at hk ⊢
  have hs := pruneGo_spec a.m k
    [TKey.y, TKey.m, TKey.d, TKey.H, TKey.M, TKey.S]
    (by decide) (by cases k <;> decide) a.i a.x a.a
  by_cases hc : a.m < (a.x k).length
  · rw [if_pos hc] at hs
    exact ⟨hs.2.1, hs.2.2⟩
  · rw [if_neg hc] at hs
    rw [hs.1, hi] at hk
    exact absurd hk (by simp)

/-- With a date column (no timestamp), an active date unit has at most
`a['m']` records after the prune. -/
theorem dtPrune_d_cap (a : Axisx) (e : Colle) (k : TKey) (idd : ℕ)
    (hx : e.x = none) (hd : e.d = some idd)
    (hmem : k ∈ [TKey.y, TKey.m, TKey.d])
    (hk : (dtPrune a e).i k = true) :
    ((dtPrune a e).d k).length ≤ a.m := by
  rcases ht : e.t with _ | idt <;> simp only [dtPrune, hx, hd, ht] at hk ⊢
  · have hs := pruneGo_spec a.m k [TKey.y, TKey.m, TKey.d]
      (by decide) hmem a.i a.d a.b
    by_cases hc : a.m < (a.d k).length
    · rw [if_pos hc] at hs
      rw [hs.1] at hk
      exact absurd hk (by simp)
    · rw [if_neg hc] at hs
      rw [hs.2.1]
      omega
  · have hs := pruneGo_spec a.m k [TKey.y, TKey.m, TKey.d]
      (by decide) hmem
      (pruneGo a.m [TKey.H, TKey.M, TKey.S] a.i a.t a.c).1 a.d a.b
    by_cases hc : a.m < (a.d k).length
    · rw [if_pos hc] at hs
      rw [hs.1] at hk
      exact absurd hk (by simp)
    · rw [if_neg hc] at hs
      rw [hs.2.1]
      omega

/-- With a date column (no timestamp), a date unit the prune deactivates
has its record and value lists cleared. -/
theorem dtPrune_d_clear (a : Axisx) (e : Colle) (k : TKey) (idd : ℕ)
    (hx : e.x = none) (hd : e.d = some idd)
    (hmem : k ∈ [TKey.y, TKey.m, TKey.d]) (hi : a.i k = true)
    (hk : (dtPrune a e).i k = false) :
    (dtPrune a e).d k = [] ∧ (dtPrune a e).b k = [] := by
  have hnot : k ∉ [TKey.H, TKey.M, TKey.S] := by
    cases k <;> revert hmem <;> decide
  rcases ht : e.t with _ | idt <;> simp only [dtPrune, hx, hd, ht] at hk ⊢
  · have hs := pruneGo_spec a.m k [TKey.y, TKey.m, TKey.d]
      (by decide) hmem a.i a.d a.b
    by_cases hc : a.m < (a.d k).length
    · rw [if_pos hc] at hs
      exact ⟨hs.2.1, hs.2.2⟩
    · rw [if_neg hc] at hs
      rw [hs.1, hi] at hk
      exact absurd hk (by simp)
  · have hs := pruneGo_spec a.m k [TKey.y, TKey.m, TKey.d]
      (by decide) hmem
      (pruneGo a.m [TKey.H, TKey.M, TKey.S] a.i a.t a.c).1 a.d a.b
    by_cases hc : a.m < (a.d k).length
    · rw [if_pos hc] at hs
      exact ⟨hs.2.1, hs.2.2⟩
    · rw [if_neg hc] at hs
      rw [hs.1,
        (pruneGo_notmem a.m k [TKey.H, TKey.M, TKey.S] hnot a.i a.t a.c).1,
        hi] at hk
      exact absurd hk (by simp)

/-- With a time column (no timestamp), an active time unit has at most
`a['m']` records after the prune. -/
theorem dtPrune_t_cap (a : Axisx) (e : Colle) (k : TKey) (idt : ℕ)
    (hx : e.x = none) (ht : e.t = some idt)
    (hmem : k ∈ [TKey.H, TKey.M, TKey.S])
    (hk : (dtPrune a e).i k = true) :
    ((dtPrune a e).t k).length ≤ a.m := by
  have hnot : k ∉ [TKey.y, TKey.m, TKey.d] := by
    cases k <;> revert hmem <;> decide
  have hs := pruneGo_spec a.m k [TKey.H, TKey.M, TKey.S]
    (by decide) hmem a.i a.t a.c
  rcases hd : e.d with _ | idd <;> simp only [dtPrune, hx, hd, ht] at hk ⊢
  · by_cases hc : a.m < (a.t k).length
    · rw [if_pos hc] at hs
      rw [hs.1] at hk
      exact absurd hk (by simp)
    · rw [if_neg hc] at hs
      rw [hs.2.1]
      omega
  · rw [(pruneGo_notmem a.m k [TKey.y, TKey.m, TKey.d] hnot _ _ _).1] at hk
    by_cases hc : a.m < (a.t k).length
    · rw [if_pos hc] at hs
      rw [hs.1] at hk
      exact absurd hk (by simp)
    · rw [if_neg hc] at hs
      rw [hs.2.1]
      omega

/-- With a time column (no timestamp), a time unit the prune deactivates
has its record and value lists cleared. -/
theorem dtPrune_t_clear (a : Axisx) (e : Colle) (k : TKey) (idt : ℕ)
    (hx : e.x = none) (ht : e.t = some idt)
    (hmem : k ∈ [TKey.H, TKey.M, TKey.S]) (hi : a.i k = true)
    (hk : (dtPrune a e).i k = false) :
    (dtPrune a e).t k = [] ∧ (dtPrune a e).c k = [] := by
  have hnot : k ∉ [TKey.y, TKey.m, TKey.d] := by
    cases k <;> revert hmem <;> decide
  have hs := pruneGo_spec a.m k [TKey.H, TKey.M, TKey.S]
    (by decide) hmem a.i a.t a.c
  rcases hd : e.d with _ | idd <;> simp only [dtPrune, hx, hd, ht] at hk ⊢
  · by_cases hc : a.m < (a.t k).length
    · rw [if_pos hc] at hs
      exact ⟨hs.2.1, hs.2.2⟩
    · rw [if_neg hc] at hs
      rw [hs.1, hi] at hk
      exact absurd hk (by simp)
  · rw [(pruneGo_notmem a.m k [TKey.y, TKey.m, TKey.d] hnot _ _ _).1] at hk
    by_cases hc : a.m < (a.t k).length
    · rw [if_pos hc] at hs
      exact ⟨hs.2.1, hs.2.2⟩
    · rw [if_neg hc] at hs
      rw [hs.1, hi] at hk
      exact absurd hk (by simp)

/-- The 100th-sample reset keeps or clears each record list, and never
touches the value dicts. -/
theorem dtReset_cases (a : Axisx) (e : Colle) (k : TKey) :
    ((dtReset a e).x k = a.x k ∨ (dtReset a e).x k = []) ∧
    ((dtReset a e).d k = a.d k ∨ (dtReset a e).d k = []) ∧
    ((dtReset a e).t k = a.t k ∨ (dtReset a e).t k = []) ∧
    (dtReset a e).a = a.a ∧ (dtReset a e).b = a.b ∧
    (dtReset a e).c = a.c := by
  rcases hx : e.x with _ | ix <;> rcases hd : e.d with _ | idd <;>
    rcases ht : e.t with _ | idt <;> simp only [dtReset, hx, hd, ht] <;>
    ((try split_ifs) <;> simp_all)

/-- Properties of the record-then-prune composition: inactive units never
grow, each unit gains at most one record, and for the active category a
unit kept active is capped at `a['m']` records while a deactivated one is
cleared. -/
theorem pruned_axis_props (g : List (List Char)) (c : ℕ) (a : Axisx)
    (e : Colle) (k : TKey) :
    (a.i k = false →
      ((dtPrune (dtRecord g c a e).1 (dtRecord g c a e).2).x k).length
        ≤ (a.x k).length ∧
      ((dtPrune (dtRecord g c a e).1 (dtRecord g c a e).2).d k).length
        ≤ (a.d k).length ∧
      ((dtPrune (dtRecord g c a e).1 (dtRecord g c a e).2).t k).length
        ≤ (a.t k).length) ∧
    (((dtPrune (dtRecord g c a e).1 (dtRecord g c a e).2).x k).length
        ≤ (a.x k).length + 1 ∧
     ((dtPrune (dtRecord g c a e).1 (dtRecord g c a e).2).d k).length
        ≤ (a.d k).length + 1 ∧
     ((dtPrune (dtRecord g c a e).1 (dtRecord g c a e).2).t k).length
        ≤ (a.t k).length + 1) ∧
    (∀ ix, e.x = some ix →
      ((dtPrune (dtRecord g c a e).1 (dtRecord g c a e).2).i k = true →
        ((dtPrune (dtRecord g c a e).1 (dtRecord g c a e).2).x k).length
          ≤ a.m) ∧
      (a.i k = true →
        (dtPrune (dtRecord g c a e).1 (dtRecord g c a e).2).i k = false →
        (dtPrune (dtRecord g c a e).1 (dtRecord g c a e).2).x k = [] ∧
        (dtPrune (dtRecord g c a e).1 (dtRecord g c a e).2).a k = [])) ∧
    (e.x = none → ∀ idd, e.d = some idd → k ∈ [TKey.y, TKey.m, TKey.d] →
      ((dtPrune (dtRecord g c a e).1 (dtRecord g c a e).2).i k = true →
        ((dtPrune (dtRecord g c a e).1 (dtRecord g c a e).2).d k).length
          ≤ a.m) ∧
      (a.i k = true →
        (dtPrune (dtRecord g c a e).1 (dtRecord g c a e).2).i k = false →
        (dtPrune (dtRecord g c a e).1 (dtRecord g c a e).2).d k = [] ∧
        (dtPrune (dtRecord g c a e).1 (dtRecord g c a e).2).b k = [])) ∧
    (e.x = none → ∀ idt, e.t = some idt → k ∈ [TKey.H, TKey.M, TKey.S] →
      ((dtPrune (dtRecord g c a e).1 (dtRecord g c a e).2).i k = true →
        ((dtPrune (dtRecord g c a e).1 (dtRecord g c a e).2).t k).length
          ≤ a.m) ∧
      (a.i k = true →
        (dtPrune (dtRecord g c a e).1 (dtRecord g c a e).2).i k = false →
        (dtPrune (dtRecord g c a e).1 (dtRecord g c a e).2).t k = [] ∧
        (dtPrune (dtRecord g c a e).1 (dtRecord g c a e).2).c k = [])) := by
  have hrec := dtRecord_fixed g c a e
  have hgrow := dtRecord_growth g c a e k
  set A1 := (dtRecord g c a e).1 with hA1
  set E1 := (dtRecord g c a e).2 with hE1
  refine ⟨?_, ?_, ?_, ?_, ?_⟩
  · intro hik
    have hri := dtRecord_inactive g c a e k hik
    rw [← hA1] at hri
    refine ⟨?_, ?_, ?_⟩
    · rcases dtPrune_x_cases A1 E1 k with hp | hp <;> rw [hp] <;>
        simp [hri.1]
    · rcases dtPrune_d_cases A1 E1 k with hp | hp <;> rw [hp] <;>
        simp [hri.2.1]
    · rcases dtPrune_t_cases A1 E1 k with hp | hp <;> rw [hp] <;>
        simp [hri.2.2]
  · refine ⟨?_, ?_, ?_⟩
    · rcases dtPrune_x_cases A1 E1 k with hp | hp <;> rw [hp]
      · exact hgrow.1
      · simp
    · rcases dtPrune_d_cases A1 E1 k with hp | hp <;> rw [hp]
      · exact hgrow.2.1
      · simp
    · rcases dtPrune_t_cases A1 E1 k with hp | hp <;> rw [hp]
      · exact hgrow.2.2
      · simp
  · intro ix hx
    have hEx : E1.x = some ix := hrec.2.2.2.2.2.1.trans hx
    refine ⟨?_, ?_⟩
    · intro hik
      have hc := dtPrune_x_cap A1 E1 k ix hEx hik
      rwa [hrec.2.1] at hc
    · intro hai hik
      have hAi : A1.i k = true := by
        rw [congrFun hrec.2.2.2.1 k]
        exact hai
      exact dtPrune_x_clear A1 E1 k ix hEx hAi hik
  · intro hxn idd hd hmem
    have hExn : E1.x = none := hrec.2.2.2.2.2.1.trans hxn
    have hEd : E1.d = some idd := hrec.2.2.2.2.2.2.1.trans hd
    refine ⟨?_, ?_⟩
    · intro hik
      have hc := dtPrune_d_cap A1 E1 k idd hExn hEd hmem hik
      rwa [hrec.2.1] at hc
    · intro hai hik
      have hAi : A1.i k = true := by
        rw [congrFun hrec.2.2.2.1 k]
        exact hai
      exact dtPrune_d_clear A1 E1 k idd hExn hEd hmem hAi hik
  · intro hxn idt ht hmem
    have hExn : E1.x = none := hrec.2.2.2.2.2.1.trans hxn
    have hEt : E1.t = some idt := hrec.2.2.2.2.2.2.2.1.trans ht
    refine ⟨?_, ?_⟩
    · intro hik
      have hc := dtPrune_t_cap A1 E1 k idt hExn hEt hmem hik
      rwa [hrec.2.1] at hc
    · intro hai hik
      have hAi : A1.i k = true := by
        rw [congrFun hrec.2.2.2.1 k]
        exact hai
      exact dtPrune_t_clear A1 E1 k idt hExn hEt hmem hAi hik

/-- C6 counterexample: ten rows whose timestamp's seconds slice changes
every row, width 10.  At the 10th processed sample (a 5th-sample check)
the seconds unit holds 9 change records — more than the claimed density
cap `floor(availableColumns/2) = 5` — yet stays active and uncleared,
because the code prunes only above `a['m']` (the full width 10). -/
theorem C6_counterexample :
    (processRows none (mstate0 10) densityRunRows).isSome = true ∧
    ((processRows none (mstate0 10) densityRunRows).getD (mstate0 10)).cv
      = 10 ∧
    ((processRows none (mstate0 10) densityRunRows).getD
      (mstate0 10)).axisx.i TKey.S = true ∧
    (((processRows none (mstate0 10) densityRunRows).getD
      (mstate0 10)).axisx.x TKey.S).length = 9 ∧
    (mstate0 10).axisx.m / 2 < 9 := by
  decide

/-- C6 (amended): on every 5th processed sample the tracker prunes, per
unit of the category in use, any unit whose change-record count exceeds
`a['m']` (the full available column count, not `floor(availableColumns/2)`),
clearing its record and value lists and deactivating it; a unit still
active after the check holds at most `a['m']` records; every unit gains
at most one record per sample; and an inactive unit's record lists never
grow. -/
theorem C6_theorem (CSUM : Option TKey) (g : List (List Char)) (c : ℕ)
    (a : Axisx) (v : ℚ) (e : Colle) (p : Grups) (r : Axisx × Colle × Grups)
    (k : TKey) (h : date_time CSUM g c a v e p = some r) :
    (a.i k = false →
      (r.1.x k).length ≤ (a.x k).length ∧
      (r.1.d k).length ≤ (a.d k).length ∧
      (r.1.t k).length ≤ (a.t k).length) ∧
    ((r.1.x k).length ≤ (a.x k).length + 1 ∧
     (r.1.d k).length ≤ (a.d k).length + 1 ∧
     (r.1.t k).length ≤ (a.t k).length + 1) ∧
    (c % 5 = 0 → ∀ ix, e.x = some ix →
      (r.1.i k = true → (r.1.x k).length ≤ a.m) ∧
      (a.i k = true → r.1.i k = false →
        r.1.x k = [] ∧ r.1.a k = [])) ∧
    (c % 5 = 0 → e.x = none → ∀ idd, e.d = some idd →
      k ∈ [TKey.y, TKey.m, TKey.d] →
      (r.1.i k = true → (r.1.d k).length ≤ a.m) ∧
      (a.i k = true → r.1.i k = false →
        r.1.d k = [] ∧ r.1.b k = [])) ∧
    (c % 5 = 0 → e.x = none → ∀ idt, e.t = some idt →
      k ∈ [TKey.H, TKey.M, TKey.S] →
      (r.1.i k = true → (r.1.t k).length ≤ a.m) ∧
      (a.i k = true → r.1.i k = false →
        r.1.t k = [] ∧ r.1.c k = [])) := by
  have hP := pruned_axis_props g c a e k
  have hgrow := dtRecord_growth g c a e k
  simp only [date_time] at h
  split_ifs at h with h5 he h100
  · have hr1 : r.1 = dtPrune (dtRecord g c a e).1 (dtRecord g c a e).2 := by
      rw [← Option.some.inj h]
    rw [hr1]
    exact ⟨hP.1, hP.2.1, fun _ ix hx => hP.2.2.1 ix hx,
      fun _ hxn idd hd hmem => hP.2.2.2.1 hxn idd hd hmem,
      fun _ hxn idt ht hmem => hP.2.2.2.2 hxn idt ht hmem⟩
  · have hr1 := (dtSum_state _ _ _ _ _ _ _ h).1
    set P := dtPrune (dtRecord g c a e).1 (dtRecord g c a e).2 with hPdef
    set Q := dtCheckE g (dtRecord g c a e).2 with hQdef
    have hRi : (dtReset P Q).i = P.i := (dtReset_fixed P Q).2.2.2.1
    have hRc := dtReset_cases P Q k
    rw [hr1]
    refine ⟨?_, ?_, ?_, ?_, ?_⟩
    · intro hik
      have h1 := hP.1 hik
      refine ⟨?_, ?_, ?_⟩
      · rcases hRc.1 with hq | hq
        · rw [hq]; exact h1.1
        · rw [hq]; simp
      · rcases hRc.2.1 with hq | hq
        · rw [hq]; exact h1.2.1
        · rw [hq]; simp
      · rcases hRc.2.2.1 with hq | hq
        · rw [hq]; exact h1.2.2
        · rw [hq]; simp
    · refine ⟨?_, ?_, ?_⟩
      · rcases hRc.1 with hq | hq
        · rw [hq]; exact hP.2.1.1
        · rw [hq]; simp
      · rcases hRc.2.1 with hq | hq
        · rw [hq]; exact hP.2.1.2.1
        · rw [hq]; simp
      · rcases hRc.2.2.1 with hq | hq
        · rw [hq]; exact hP.2.1.2.2
        · rw [hq]; simp
    · intro _ ix hx
      have hc := hP.2.2.1 ix hx
      refine ⟨?_, ?_⟩
      · intro hik
        rw [congrFun hRi k] at hik
        have hle := hc.1 hik
        rcases hRc.1 with hq | hq
        · rw [hq]; exact hle
        · rw [hq]; simp
      · intro hai hik
        rw [congrFun hRi k] at hik
        have hcl := hc.2 hai hik
        refine ⟨?_, ?_⟩
        · rcases hRc.1 with hq | hq
          · rw [hq]; exact hcl.1
          · rw [hq]
        · rw [congrFun hRc.2.2.2.1 k]
          exact hcl.2
    · intro _ hxn idd hd hmem
      have hc := hP.2.2.2.1 hxn idd hd hmem
      refine ⟨?_, ?_⟩
      · intro hik
        rw [congrFun hRi k] at hik
        have hle := hc.1 hik
        rcases hRc.2.1 with hq | hq
        · rw [hq]; exact hle
        · rw [hq]; simp
      · intro hai hik
        rw [congrFun hRi k] at hik
        have hcl := hc.2 hai hik
        refine ⟨?_, ?_⟩
        · rcases hRc.2.1 with hq | hq
          · rw [hq]; exact hcl.1
          · rw [hq]
        · rw [congrFun hRc.2.2.2.2.1 k]
          exact hcl.2
    · intro _ hxn idt ht hmem
      have hc := hP.2.2.2.2 hxn idt ht hmem
      refine ⟨?_, ?_⟩
      · intro hik
        rw [congrFun hRi k] at hik
        have hle := hc.1 hik
        rcases hRc.2.2.1 with hq | hq
        · rw [hq]; exact hle
        · rw [hq]; simp
      · intro hai hik
        rw [congrFun hRi k] at hik
        have hcl := hc.2 hai hik
        refine ⟨?_, ?_⟩
        · rcases hRc.2.2.1 with hq | hq
          · rw [hq]; exact hcl.1
          · rw [hq]
        · rw [congrFun hRc.2.2.2.2.2 k]
          exact hcl.2
  · have hr1 := (dtSum_state _ _ _ _ _ _ _ h).1
    rw [hr1]
    exact ⟨hP.1, hP.2.1, fun _ ix hx => hP.2.2.1 ix hx,
      fun _ hxn idd hd hmem => hP.2.2.2.1 hxn idd hd hmem,
      fun _ hxn idt ht hmem => hP.2.2.2.2 hxn idt ht hmem⟩
  · have hr1 := (dtSum_state _ _ _ _ _ _ _ h).1
    rw [hr1]
    have hri := dtRecord_inactive g c a e k
    exact ⟨fun hik => ⟨le_of_eq (congrArg List.length (hri hik).1),
        le_of_eq (congrArg List.length (hri hik).2.1),
        le_of_eq (congrArg List.length (hri hik).2.2)⟩,
      hgrow, fun h5c => absurd h5c h5, fun h5c => absurd h5c h5,
      fun h5c => absurd h5c h5⟩

/-- C6 witness: the per-sample growth bound instantiated on a trivial
tracker call (no columns adopted, sample 1). -/
theorem C6_witness :
    (((axisx0 10, colle0, grups0) : Axisx × Colle × Grups).1.x
        TKey.S).length ≤ ((axisx0 10).x TKey.S).length + 1 :=
  (C6_theorem none [] 1 (axisx0 10) 0 colle0 grups0
    (axisx0 10, colle0, grups0) TKey.S rfl).2.1.1

set_option maxRecDepth 100000 in
/-- C7: the 100th-sample reset replaces a fully-inactive category's
record dict with a fresh empty one but never touches the active flags,
so no tracker call ever reactivates a unit (first conjunct), and in a
concrete 101-sample run (width 1, year changing every row) every unit is
still inactive and empty after the 100th-sample reset has fired, so
change recording never resumes. -/
theorem C7_theorem :
    (∀ (CSUM : Option TKey) (g : List (List Char)) (c : ℕ) (a : Axisx)
       (v : ℚ) (e : Colle) (p : Grups) (r : Axisx × Colle × Grups)
       (k : TKey),
      date_time CSUM g c a v e p = some r → r.1.i k = true →
        a.i k = true) ∧
    (processRows none (mstate0 1) centuryRunRows).isSome = true ∧
    ([TKey.y, TKey.m, TKey.d, TKey.H, TKey.M, TKey.S].all (fun k =>
      !((processRows none (mstate0 1) centuryRunRows).getD
          (mstate0 1)).axisx.i k &&
      decide (((processRows none (mstate0 1) centuryRunRows).getD
          (mstate0 1)).axisx.x k = []))) = true :=
  ⟨date_time_flag_mono, by decide, by decide⟩

/-- C7 witness: the no-reactivation conjunct instantiated on a trivial
tracker call. -/
theorem C7_witness : (axisx0 10).i TKey.y = true :=
  C7_theorem.1 none [] 1 (axisx0 10) 0 colle0 grups0
    (axisx0 10, colle0, grups0) TKey.y rfl (by decide)

/-- C5 counterexample: four good timestamp rows, a malformed fifth row
(the 5th-sample strict check fails there), fifteen more numeric rows.
The error counter becomes 1, time use and summation are disabled and the
buckets are discarded — but `axisx['u']` is still set, so the chart tail
calls `print_x_legend`, which emits a tick row carrying the subscript
label '₀': X-axis labels are still printed, contradicting the claim. -/
theorem C5_counterexample :
    (processRows none (mstate0 20) formatErrorRows).isSome = true ∧
    ((processRows none (mstate0 20) formatErrorRows).getD
      (mstate0 20)).colle.e = 1 ∧
    ((processRows none (mstate0 20) formatErrorRows).getD
      (mstate0 20)).colle.u = false ∧
    ((processRows none (mstate0 20) formatErrorRows).getD
      (mstate0 20)).grups.u = false ∧
    ((processRows none (mstate0 20) formatErrorRows).getD
      (mstate0 20)).grups.g = [] ∧
    ((processRows none (mstate0 20) formatErrorRows).getD
      (mstate0 20)).axisx.u = true ∧
    ((processRows none (mstate0 20) formatErrorRows).getD
      (mstate0 20)).raw.length = 20 ∧
    formatErrorLegend.length = 2 ∧
    '₀' ∈ formatErrorLegend.getD 1 [] := by
  decide

/-- C5 (amended): when the 5th-sample strict check fails on the adopted
timestamp column, the tracker increments the error counter and returns
early with time use disabled and the buckets discarded and disabled
(first three conjuncts) — but the legend-usable flag of `axisx` is left
exactly as it was, so X-axis label printing is not revoked (fourth
conjunct); thereafter the driver stops calling the tracker while still
ingesting numeric values (last conjunct). -/
theorem C5_theorem (CSUM : Option TKey) (g : List (List Char)) (c : ℕ)
    (a : Axisx) (v : ℚ) (e : Colle) (p : Grups) (st : MState)
    (f : List (List Char)) (w : ℚ) (ix : ℕ)
    (h5 : c % 5 = 0) (hx : e.x = some ix)
    (hbad : tsMatch ((g.getD ix []).take 19) = false) :
    date_time CSUM g c a v e p =
      some (dtPrune (dtRecord g c a e).1 (dtRecord g c a e).2,
        {dtCheckE g (dtRecord g c a e).2 with u := false},
        {p with u := false, g := []}) ∧
    ({dtCheckE g (dtRecord g c a e).2 with u := false} : Colle).u = false ∧
    (dtCheckE g (dtRecord g c a e).2).e = e.e + 1 ∧
    (dtPrune (dtRecord g c a e).1 (dtRecord g c a e).2).u = a.u ∧
    (st.colle.u = false →
      processRow CSUM st f w =
        some ⟨st.cv + 1, st.colle, st.axisx, st.grups, st.raw ++ [w]⟩) := by
  have hrec := dtRecord_fixed g c a e
  have hEx : (dtRecord g c a e).2.x = some ix := hrec.2.2.2.2.2.1.trans hx
  have hchk : (dtCheckE g (dtRecord g c a e).2).e =
      (dtRecord g c a e).2.e + 1 := by
    have hbad2 : tsMatch (List.take 19 (g[ix]?.getD [])) = false := by
      simpa [List.getD] using hbad
    simp [dtCheckE, hEx, hbad2]
  have hpos : 0 < (dtCheckE g (dtRecord g c a e).2).e := by
    rw [hchk]
    exact Nat.succ_pos _
  refine ⟨?_, rfl, ?_, ?_, ?_⟩
  · simp only [date_time]
    rw [if_pos h5, if_pos hpos]
  · rw [hchk, hrec.2.2.2.2.2.2.2.2.2.1]
  · exact (dtPrune_fixed (dtRecord g c a e).1 (dtRecord g c a e).2).1.trans
      hrec.1
  · intro hu
    simp [processRow, hu]

/-- C5 witness: the early-exit equality instantiated on a malformed
timestamp row at sample 5. -/
theorem C5_witness :
    date_time none ["bad".toList] 5 (axisx0 10) 0
        {colle0 with x := some 0} grups0 =
      some (dtPrune (dtRecord ["bad".toList] 5 (axisx0 10)
              {colle0 with x := some 0}).1
            (dtRecord ["bad".toList] 5 (axisx0 10)
              {colle0 with x := some 0}).2,
        {dtCheckE ["bad".toList] (dtRecord ["bad".toList] 5 (axisx0 10)
              {colle0 with x := some 0}).2 with u := false},
        {grups0 with u := false, g := []}) :=
  (C5_theorem none ["bad".toList] 5 (axisx0 10) 0 {colle0 with x := some 0}
    grups0 (mstate0 10) [] 0 0 (by decide) rfl (by decide)).1
